import Mathlib

/-!
Verification of the Callisto_Memory persistence layer: a shallow embedding of
the profile-store merge/mutation engine (`src/user_store.py`) and the
conversation-log store (`src/conversation_store.py`), with theorems settling
the specified behaviour of merge conflict resolution, UUID validation,
document invariants, pruning and log relocation.

JSON documents are modelled as a tagged tree; Python dicts become association
lists that preserve insertion order (lookup finds the first binding, update
replaces the first binding in place, a new key is appended — matching CPython
dict semantics for the unique-key lists the programs build).  Operations that
can raise a Python exception return `Option`/`Except` with `none`/`.error`
standing for the raised exception.
-/

/-- JSON values.  Numbers are modelled as integers: every numeric literal the
program itself writes (`total_conversations` counts, dates as strings) is
integral, and floating point is outside the scope of the embedding. -/
inductive Json where
  | null
  | bool (b : Bool)
  | num (n : Int)
  | str (s : String)
  | arr (items : List Json)
  | obj (fields : List (String × Json))
deriving Repr

namespace Json

mutual

/-- Structural equality of JSON values, modelling Python `==` on the shapes
the store produces. -/
def beq : Json → Json → Bool
  | .null, .null => true
  | .bool a, .bool b => a == b
  | .num a, .num b => a == b
  | .str a, .str b => a == b
  | .arr a, .arr b => beqList a b
  | .obj a, .obj b => beqFields a b
  | _, _ => false

def beqList : List Json → List Json → Bool
  | [], [] => true
  | a :: as, b :: bs => beq a b && beqList as bs
  | _, _ => false

def beqFields : List (String × Json) → List (String × Json) → Bool
  | [], [] => true
  | (ka, va) :: as, (kb, vb) :: bs => ka == kb && beq va vb && beqFields as bs
  | _, _ => false

end

instance : BEq Json := ⟨Json.beq⟩

/-- Numeric view used by Python arithmetic and comparisons: `bool` is an
`int` subtype in Python, so `True` counts as `1` and `False` as `0`. -/
def asInt? : Json → Option Int
  | .num n => some n
  | .bool b => some (if b then 1 else 0)
  | _ => none

/-- String view of a JSON value. -/
def asStr? : Json → Option String
  | .str s => some s
  | _ => none

end Json

/-- Lookup in a Python dict modelled as an association list: the first
binding of the key (the lists the program builds bind each key once). -/
def lookupKV {α : Type} (kvs : List (String × α)) (k : String) : Option α :=
  match kvs with
  | [] => none
  | (k', v) :: rest => if k' = k then some v else lookupKV rest k

/-- Assignment `d[k] = v` on a Python dict: an existing key keeps its
position and gets the new value, a new key is appended at the end. -/
def setKV {α : Type} (kvs : List (String × α)) (k : String) (v : α) :
    List (String × α) :=
  match kvs with
  | [] => [(k, v)]
  | (k', v') :: rest =>
    if k' = k then (k', v) :: rest else (k', v') :: setKV rest k v

/-- Removal of a key's (unique) binding, modelling `del d[k]` on a dict and
file deletion on a directory map. -/
def eraseKV {α : Type} : List (String × α) → String → List (String × α)
  | [], _ => []
  | (k', v) :: rest, k => if k' = k then rest else (k', v) :: eraseKV rest k

/-- Does `hay` start with `needle`? -/
def listStartsWith : List Char → List Char → Bool
  | _, [] => true
  | [], _ :: _ => false
  | h :: hs, n :: ns => (h == n) && listStartsWith hs ns

/-- Substring occurrence on character lists. -/
def listContainsSub (hay needle : List Char) : Bool :=
  match hay with
  | [] => needle.isEmpty
  | _ :: rest => listStartsWith hay needle || listContainsSub rest needle

/-- Python substring test `needle in hay` for strings. -/
def strContainsSub (hay needle : String) : Bool :=
  listContainsSub hay.data needle.data

/-- Python membership test `needle in x` for a string needle: key lookup on a
dict, substring test on a string, element equality on a list; on a number,
boolean or `None` it raises `TypeError`, modelled as `none`. -/
def pyContains (needle : String) : Json → Option Bool
  | .obj kvs => some (lookupKV kvs needle).isSome
  | .str s => some (strContainsSub s needle)
  | .arr items => some (items.contains (.str needle))
  | _ => none

/-- Python subscript `x[k]` with a string key: only a dict holding the key
succeeds; a missing key (`KeyError`) or a non-dict (`TypeError`) raises,
modelled as `none`. -/
def pyGetItem (x : Json) (k : String) : Option Json :=
  match x with
  | .obj kvs => lookupKV kvs k
  | _ => none

/-- Python `+` on the JSON values the store can hold: numbers (including
booleans) add, strings and lists concatenate, anything else raises
`TypeError`. -/
def pyAdd (a b : Json) : Option Json :=
  match a.asInt?, b.asInt? with
  | some x, some y => some (.num (x + y))
  | _, _ =>
    match a, b with
    | .str x, .str y => some (.str (x ++ y))
    | .arr x, .arr y => some (.arr (x ++ y))
    | _, _ => none

/-- Lexicographic comparison of character lists by code point — exactly
Python's string `<`. -/
def charListLt : List Char → List Char → Bool
  | _, [] => false
  | [], _ :: _ => true
  | x :: xs, y :: ys =>
    decide (x.toNat < y.toNat) || (decide (x.toNat = y.toNat) && charListLt xs ys)

/-- Python `<` on strings: lexicographic by Unicode code point. -/
def pyStrLt (a b : String) : Bool := charListLt a.data b.data

/-- Python `>` on the comparable pairs the store can produce: two numbers
(including booleans) or two strings (lexicographic); a mixed pair raises
`TypeError`. -/
def pyGt (a b : Json) : Option Bool :=
  match a.asInt?, b.asInt? with
  | some x, some y => some (decide (y < x))
  | _, _ =>
    match a, b with
    | .str x, .str y => some (pyStrLt y x)
    | _, _ => none

/-! ## The profile merge engine (`UserStore._merge_user_data`) -/

/-- Values of the wrapped Facts in a list:
`[item.get("value") for item in items if isinstance(item, dict) and "value" in item]`. -/
def factValues (items : List Json) : List Json :=
  items.filterMap (fun it =>
    match it with
    | .obj kvs => lookupKV kvs "value"
    | _ => none)

/-- Inner loop of the top-level list merge: walks the source items carrying
the `existing_values` accumulator, appending each wrapped Fact whose `value`
is not yet seen and recording that value. -/
def mergeListsGo (seen : List Json) : List Json → List Json
  | [] => []
  | it :: rest =>
    match it with
    | .obj kvs =>
      match lookupKV kvs "value" with
      | some v =>
        if seen.contains v then mergeListsGo seen rest
        else it :: mergeListsGo (seen ++ [v]) rest
      | none => mergeListsGo seen rest
    | _ => mergeListsGo seen rest

/-- Top-level list merge of `_merge_user_data`: target items kept, then the
deduplicated-by-`value` wrapped Facts from the source appended. -/
def mergeLists (tgt src : List Json) : List Json :=
  tgt ++ mergeListsGo (factValues tgt) src

/-- Short-circuiting `all("date_discussed" in item for item in combined)`:
an early `False` stops evaluation before a later item could raise. -/
def allDD : List Json → Option Bool
  | [] => some true
  | x :: rest =>
    match pyContains "date_discussed" x with
    | none => none
    | some true => allDD rest
    | some false => some false

/-- Stable descending insertion of a decorated item: it goes after every
element with a strictly greater key and before the first with a smaller or
equal one, so earlier-listed items with equal keys stay first. -/
def insertDD (p : String × Json) : List (String × Json) → List (String × Json)
  | [] => [p]
  | q :: qs => if pyStrLt p.1 q.1 then q :: insertDD p qs else p :: q :: qs

/-- Stable descending sort of decorated items by key. -/
def sortDD : List (String × Json) → List (String × Json)
  | [] => []
  | p :: ps => insertDD p (sortDD ps)

/-- Stable descending sort of `combined` by the `date_discussed` member,
modelling `combined.sort(key=lambda x: x["date_discussed"], reverse=True)`.
The sort keys are modelled as strings — the `YYYY-MM-DD` format the program
writes; extracting a non-string key is modelled as an error.  CPython's
sort is stable and `reverse=True` keeps equal-keyed items in their original
relative order, which the stable descending insertion sort reproduces. -/
def sortByDD (combined : List Json) : Option (List Json) := do
  let dec ← combined.mapM (fun x => do
    let k ← pyGetItem x "date_discussed"
    let s ← k.asStr?
    pure (s, x))
  pure ((sortDD dec).map Prod.snd)

/-- Sub-field merge when source and target values are both lists: concatenate
target-first; only for the sub-field literally named `recent_topics`, and only
when every concatenated item has a `date_discussed` key, sort descending by
that key and keep the 10 most recent. -/
def listMergeField (f : String) (tl sl : List Json) : Option Json :=
  let combined := tl ++ sl
  if f = "recent_topics" then
    match allDD combined with
    | none => none
    | some true => (sortByDD combined).map (fun l => .arr (l.take 10))
    | some false => some (.arr combined)
  else some (.arr combined)

/-- One step of the category (nested dict) merge: the body of
`for field, field_value in value.items()` with `acc` the evolving target
category and `srcCat` the full source category (consulted again by
`value.get(field, 0)`). -/
def mergeCatField (now : String) (srcCat : List (String × Json))
    (acc : List (String × Json)) (f : String) (fv : Json) :
    Option (List (String × Json)) :=
  if f = "last_modified" then some (setKV acc "last_modified" (.str now))
  else
    match lookupKV acc f with
    | none =>
      if f = "total_conversations" then
        match pyAdd (.num 0) ((lookupKV srcCat f).getD (.num 0)) with
        | some s => some (setKV acc f s)
        | none => none
      else some (setKV acc f fv)
    | some old =>
      if f = "total_conversations" then
        match pyAdd old ((lookupKV srcCat f).getD (.num 0)) with
        | some s => some (setKV acc f s)
        | none => none
      else
        match fv with
        | .obj fkvs =>
          if (lookupKV fkvs "date_added").isSome then
            match pyContains "date_added" old with
            | none => none
            | some true =>
              match pyGetItem (.obj fkvs) "date_added", pyGetItem old "date_added" with
              | some sda, some tda =>
                match pyGt sda tda with
                | some true => some (setKV acc f (.obj fkvs))
                | some false => some acc
                | none => none
              | _, _ => none
            | some false => some acc
          else some acc
        | .arr sl =>
          match old with
          | .arr tl =>
            match listMergeField f tl sl with
            | some nv => some (setKV acc f nv)
            | none => none
          | _ => some acc
        | _ => some acc

/-- Folds the category merge over the source category's fields in order. -/
def mergeCatGo (now : String) (srcCat : List (String × Json))
    (acc : List (String × Json)) :
    List (String × Json) → Option (List (String × Json))
  | [] => some acc
  | (f, fv) :: rest =>
    (mergeCatField now srcCat acc f fv).bind
      (fun acc2 => mergeCatGo now srcCat acc2 rest)

/-- Merge of a source category into a target category. -/
def mergeCat (now : String) (tgtCat srcCat : List (String × Json)) :
    Option (List (String × Json)) :=
  mergeCatGo now srcCat tgtCat srcCat

/-- One step of the top-level merge loop: the body of
`for key, value in source_data.items()` with `res` the evolving result. -/
def mergeKeyStep (now : String) (res : List (String × Json)) (k : String)
    (v : Json) : Option (List (String × Json)) :=
  if k = "uuid" ∨ k = "created" then some res
  else
    match lookupKV res k with
    | none => some (setKV res k v)
    | some old =>
      match v, old with
      | .arr sl, .arr tl => some (setKV res k (.arr (mergeLists tl sl)))
      | .obj sCat, .obj tCat =>
        match mergeCat now tCat sCat with
        | some m => some (setKV res k (.obj m))
        | none => none
      | _, _ => some res

/-- Folds the top-level merge over the source document's keys in order. -/
def mergeGo (now : String) (acc : List (String × Json)) :
    List (String × Json) → Option (List (String × Json))
  | [] => some acc
  | (k, v) :: rest =>
    (mergeKeyStep now acc k v).bind (fun acc2 => mergeGo now acc2 rest)

/-- The merge algorithm `UserStore._merge_user_data(source_data, target_data)`:
start from a copy of the target, stamp `last_modified` to today, then fold the
source's keys in; `none` models a raised exception. -/
def mergeUserData (now : String) (src tgt : List (String × Json)) :
    Option (List (String × Json)) :=
  mergeGo now (setKV tgt "last_modified" (.str now)) src

/-! ## UUID validation and the store operations -/

/-- Hexadecimal digit, either case (`[0-9a-f]` under `re.IGNORECASE`). -/
def isHexDigitChar (c : Char) : Bool :=
  c.isDigit || ('a' ≤ c && c ≤ 'f') || ('A' ≤ c && c ≤ 'F')

/-- Matcher for the anchored groups of the pattern
`[0-9a-f]{g1}-[0-9a-f]{g2}-...`: each group is a run of exactly `n` hex
digits, groups separated by single hyphens, and the last group must end the
input. -/
def uuidGroupsMatch : List Nat → List Char → Bool
  | [], cs => cs.isEmpty
  | [n], cs => cs.length == n && cs.all isHexDigitChar
  | n :: rest, cs =>
    let g := cs.take n
    g.length == n && g.all isHexDigitChar &&
      (match cs.drop n with
       | '-' :: cs' => uuidGroupsMatch rest cs'
       | _ => false)

/-- The store's UUID validator, `_is_valid_uuid`: Python
`re.match(r'^[0-9a-f]{8}-...-[0-9a-f]{12}$', s, re.IGNORECASE)`.  Because
`$` (outside MULTILINE mode) also matches just before a single trailing
newline, a canonical UUID followed by one `'\n'` is accepted as well. -/
def isValidUuid (s : String) : Bool :=
  uuidGroupsMatch [8, 4, 4, 4, 12] s.data ||
    (match s.data.getLast? with
     | some '\n' => uuidGroupsMatch [8, 4, 4, 4, 12] s.data.dropLast
     | _ => false)

/-- The error taxonomy of the stores; each constructor stands for one of the
`ValueError`/`TypeError` conditions the code raises. -/
inductive Err where
  | invalidIdentifier
  | alreadyExists
  | notFound
  | sameIdentifier
  | typeMismatch
  | emptyParticipants
  | typeError
deriving Repr, DecidableEq

/-- Document produced by `create_user`: the seeded
`uuid`/`created`/`last_modified` fields, then `user_data.update` with the
initial data after `uuid`/`created` have been deleted from it. -/
def createUserDoc (now u : String) (ini : Option (List (String × Json))) :
    List (String × Json) :=
  let base := [("uuid", Json.str u), ("created", Json.str now),
               ("last_modified", Json.str now)]
  match ini with
  | none => base
  | some d =>
    (d.filter (fun kv => kv.1 != "uuid" && kv.1 != "created")).foldl
      (fun acc kv => setKV acc kv.1 kv.2) base

/-- Document transformation of `update_user`: stamp `last_modified`, then
copy every supplied key except `uuid`/`created` (so a supplied
`last_modified` value overwrites the fresh stamp). -/
def updateUserDoc (now : String) (doc data : List (String × Json)) :
    List (String × Json) :=
  data.foldl
    (fun acc kv =>
      if kv.1 = "uuid" ∨ kv.1 = "created" then acc else setKV acc kv.1 kv.2)
    (setKV doc "last_modified" (.str now))

/-- Fact wrapping shared by `update_category_field` and `add_to_list`: a dict
already carrying a `value` member is kept (stamped with `date_added` only if
missing); anything else is wrapped as a fresh `value`/`date_added` record. -/
def wrapFact (now : String) (v : Json) : Json :=
  match v with
  | .obj vkvs =>
    if (lookupKV vkvs "value").isSome then
      if (lookupKV vkvs "date_added").isSome then .obj vkvs
      else .obj (setKV vkvs "date_added" (.str now))
    else .obj [("value", .obj vkvs), ("date_added", .str now)]
  | _ => .obj [("value", v), ("date_added", .str now)]

/-- Document transformation of `update_category_field`: create the category
as an empty dict when absent, fail with `TypeMismatch` when the existing
value is not a dict, store the wrapped Fact, and stamp both the category's
and the document's `last_modified`. -/
def updateCategoryFieldDoc (now : String) (doc : List (String × Json))
    (cat fld : String) (v : Json) : Except Err (List (String × Json)) :=
  match (lookupKV doc cat).getD (.obj []) with
  | .obj ckvs =>
    let ckvs := setKV (setKV ckvs fld (wrapFact now v)) "last_modified" (.str now)
    .ok (setKV (setKV doc cat (.obj ckvs)) "last_modified" (.str now))
  | _ => .error .typeMismatch

/-- Document transformation of `add_to_list`: create the list when absent,
fail with `TypeMismatch` when the existing value is not a list, append the
wrapped Fact, and stamp the document's `last_modified`. -/
def addToListDoc (now : String) (doc : List (String × Json))
    (name : String) (v : Json) : Except Err (List (String × Json)) :=
  match (lookupKV doc name).getD (.arr []) with
  | .arr items =>
    .ok (setKV (setKV doc name (.arr (items ++ [wrapFact now v])))
      "last_modified" (.str now))
  | _ => .error .typeMismatch

/-- The users directory: one parsed JSON document per UUID. -/
abbrev UserFiles := List (String × List (String × Json))

/-- Operation `user_exists`: `False` — not an error — on a malformed UUID,
otherwise a file-existence test. -/
def userExists (st : UserFiles) (u : String) : Bool :=
  isValidUuid u && (lookupKV st u).isSome

/-- Operation `get_user_data`: raises `InvalidIdentifier` on a malformed
UUID, otherwise returns the stored document or absence. -/
def getUserData (st : UserFiles) (u : String) :
    Except Err (Option (List (String × Json))) :=
  if isValidUuid u then .ok (lookupKV st u) else .error .invalidIdentifier

/-- Operation `create_user`. -/
def createUser (st : UserFiles) (now u : String)
    (ini : Option (List (String × Json))) :
    Except Err (List (String × Json) × UserFiles) :=
  if ¬ isValidUuid u then .error .invalidIdentifier
  else if userExists st u then .error .alreadyExists
  else
    let doc := createUserDoc now u ini
    .ok (doc, setKV st u doc)

/-- Operation `update_user`. -/
def updateUser (st : UserFiles) (now u : String)
    (data : List (String × Json)) :
    Except Err (List (String × Json) × UserFiles) :=
  if ¬ isValidUuid u then .error .invalidIdentifier
  else
    match lookupKV st u with
    | none => .error .notFound
    | some doc =>
      let d := updateUserDoc now doc data
      .ok (d, setKV st u d)

/-- Operation `update_category_field`. -/
def updateCategoryField (st : UserFiles) (now u cat fld : String)
    (v : Json) : Except Err (List (String × Json) × UserFiles) :=
  if ¬ isValidUuid u then .error .invalidIdentifier
  else
    match lookupKV st u with
    | none => .error .notFound
    | some doc =>
      match updateCategoryFieldDoc now doc cat fld v with
      | .ok d => .ok (d, setKV st u d)
      | .error e => .error e

/-- Operation `add_to_list`. -/
def addToList (st : UserFiles) (now u name : String) (v : Json) :
    Except Err (List (String × Json) × UserFiles) :=
  if ¬ isValidUuid u then .error .invalidIdentifier
  else
    match lookupKV st u with
    | none => .error .notFound
    | some doc =>
      match addToListDoc now doc name v with
      | .ok d => .ok (d, setKV st u d)
      | .error e => .error e

/-- Operation `delete_user`: raises on a malformed UUID, otherwise reports
whether a file was removed. -/
def deleteUser (st : UserFiles) (u : String) :
    Except Err (Bool × UserFiles) :=
  if ¬ isValidUuid u then .error .invalidIdentifier
  else .ok ((lookupKV st u).isSome, eraseKV st u)

/-- Operation `merge_users`: validation, merge of the two documents,
persistence under the target and deletion of the source. -/
def mergeUsers (st : UserFiles) (now src tgt : String) :
    Except Err (List (String × Json) × UserFiles) :=
  if ¬ isValidUuid src ∨ ¬ isValidUuid tgt then .error .invalidIdentifier
  else if src = tgt then .error .sameIdentifier
  else if ¬ userExists st src then .error .notFound
  else
    let st₁ := if userExists st tgt then st
               else setKV st tgt (createUserDoc now tgt none)
    match lookupKV st₁ src, lookupKV st₁ tgt with
    | some sdoc, some tdoc =>
      match mergeUserData now sdoc tdoc with
      | some merged => .ok (merged, eraseKV (setKV st₁ tgt merged) src)
      | none => .error .typeError
    | _, _ => .error .notFound

/-- A successful-mutation step on a profile document, as named in the spec:
`replace_fields`, `set_category_field`, `append_to_list`, or a merge in which
this document is the target. -/
inductive Mut where
  | replaceFields (data : List (String × Json))
  | setCatField (cat fld : String) (v : Json)
  | appendList (name : String) (v : Json)
  | mergeFrom (srcDoc : List (String × Json))

/-- Applies one mutation at date `now` to a document. -/
def applyMut (now : String) (doc : List (String × Json)) :
    Mut → Except Err (List (String × Json))
  | .replaceFields data => .ok (updateUserDoc now doc data)
  | .setCatField c f v => updateCategoryFieldDoc now doc c f v
  | .appendList n v => addToListDoc now doc n v
  | .mergeFrom s =>
    match mergeUserData now s doc with
    | some m => .ok m
    | none => .error .typeError

/-- Applies a sequence of mutations, each with its own current date,
stopping at the first failure. -/
def applyMuts : List (Mut × String) → List (String × Json) →
    Except Err (List (String × Json))
  | [], doc => .ok doc
  | (m, now) :: rest, doc =>
    (applyMut now doc m).bind (fun d => applyMuts rest d)

/-! ## The conversation log store (`ConversationStore`) -/

/-- Characters Python `str.strip()` removes. -/
def pyIsSpace (c : Char) : Bool :=
  c = ' ' || c = '\t' || c = '\n' || c = '\r' || c = '\x0b' || c = '\x0c'

/-- Python `s.strip()`. -/
def pyStrip (s : String) : String :=
  String.mk (((s.data.dropWhile pyIsSpace).reverse.dropWhile pyIsSpace).reverse)

/-- Python `s.endswith(suffix)`, computed on character lists. -/
def strEndsWith (s suffix : String) : Bool :=
  listStartsWith s.data.reverse suffix.data.reverse

/-- Log names are auto-suffixed with the text-file extension. -/
def normalizeLogName (n : String) : String :=
  if strEndsWith n ".txt" then n else n ++ ".txt"

/-- A user's log directory: file name to text content. -/
abbrev LogDir := List (String × String)

/-- The logs tree: one directory per UUID. -/
abbrev LogFiles := List (String × LogDir)

/-- Path of a log file under the default data directory. -/
def logPath (u n : String) : String :=
  "data/logs/" ++ u ++ "/" ++ normalizeLogName n

/-- Operation `log_exists`: `False` — not an error — on a malformed UUID. -/
def logExists (st : LogFiles) (u n : String) : Bool :=
  isValidUuid u &&
    (match lookupKV st u with
     | some dir => (lookupKV dir (normalizeLogName n)).isSome
     | none => false)

/-- Operation `get_conversation`. -/
def getConversation (st : LogFiles) (u n : String) :
    Except Err (Option String) :=
  if isValidUuid u then
    .ok ((lookupKV st u).bind fun dir => lookupKV dir (normalizeLogName n))
  else .error .invalidIdentifier

/-- Operation `store_conversation`: prepends the timestamp banner when the
stripped content does not already start with `===`, then overwrites. -/
def storeConversation (st : LogFiles) (now u n content : String) :
    Except Err (String × LogFiles) :=
  if ¬ isValidUuid u then .error .invalidIdentifier
  else
    let content' :=
      if (pyStrip content).startsWith "===" then content
      else "=== Conversation started on " ++ now ++ " ===\n\n" ++ content
    let dir := (lookupKV st u).getD []
    .ok (logPath u n, setKV st u (setKV dir (normalizeLogName n) content'))

/-- Operation `delete_conversation`. -/
def deleteConversation (st : LogFiles) (u n : String) :
    Except Err (Bool × LogFiles) :=
  if ¬ isValidUuid u then .error .invalidIdentifier
  else
    let dir := (lookupKV st u).getD []
    .ok ((lookupKV dir (normalizeLogName n)).isSome,
      setKV st u (eraseKV dir (normalizeLogName n)))

/-- Python `content.split('\n')`: the list of chunks between newline
characters, empty chunks preserved (`''.split` gives one empty chunk). -/
def splitNlGo (cur : List Char) : List Char → List String
  | [] => [String.mk cur.reverse]
  | c :: rest =>
    if c = '\n' then String.mk cur.reverse :: splitNlGo [] rest
    else splitNlGo (c :: cur) rest

/-- Python `s.split('\n')`. -/
def pySplitLines (s : String) : List String := splitNlGo [] s.data

/-- Header/body split of `prune_conversation`: the loop keeps every line in
the header, flipping out of header mode after the first line whose
`strip()` is empty (that blank line stays in the header). -/
def splitHeader : List String → List String × List String
  | [] => ([], [])
  | l :: rest =>
    if (pyStrip l).isEmpty then ([l], rest)
    else
      let p := splitHeader rest
      (l :: p.1, p.2)

/-- Python slice `xs[-keep:]` for an arbitrary integer `keep`: a positive
`keep` yields the last `keep` elements, while `keep = 0` yields the whole
list (`-0` is `0`) and a negative `keep` drops the first `-keep` elements. -/
def pyTailSlice {α : Type} (keep : Int) (xs : List α) : List α :=
  if 0 < keep then xs.drop (xs.length - keep.toNat) else xs.drop (-keep).toNat

/-- Leading-timestamp parse, `re.match(r'\[([\d-]+ [\d:]+)\]', line)`: an
opening bracket, a nonempty run of digits/hyphens, a space, a nonempty run of
digits/colons, and a closing bracket; the captured group is the part between
the brackets.  Both character classes exclude their follower, so the regex's
greedy matching is maximal-munch. -/
def parseTs (line : String) : Option String :=
  match line.data with
  | '[' :: rest =>
    let a := rest.takeWhile (fun c => c.isDigit || c = '-')
    if a.isEmpty then none
    else
      match rest.drop a.length with
      | ' ' :: rest2 =>
        let b := rest2.takeWhile (fun c => c.isDigit || c = ':')
        if b.isEmpty then none
        else
          match rest2.drop b.length with
          | ']' :: _ => some (String.mk (a ++ ' ' :: b))
          | _ => none
      | _ => none
  | _ => none

/-- Python truthiness of an optional date string: `None` and the empty
string are both falsy. -/
def givenDate : Option String → Bool
  | some s => s != ""
  | none => false

/-- Date filter on one body line: a line with a parsed leading timestamp is
dropped when a given `start_date` exceeds it or a given `end_date` is below
it; a line without a recognizable timestamp is kept unconditionally. -/
def keepLine (sd ed : Option String) (l : String) : Bool :=
  match parseTs l with
  | none => true
  | some d =>
    !(givenDate sd && pyStrLt d (sd.getD "")) &&
      !(givenDate ed && pyStrLt (ed.getD "") d)

/-- Line-count stage of `prune_conversation`: the slice is applied only when
`keep_lines` was supplied. -/
def sliceStage (keep : Option Int) (body : List String) : List String :=
  match keep with
  | some k => pyTailSlice k body
  | none => body

/-- Content transformation of `prune_conversation`: split lines into header
and body, apply the line-count slice when `keep_lines` is supplied, apply
the date filter when either bound is truthy, and rejoin. -/
def pruneContent (content : String) (keep : Option Int)
    (sd ed : Option String) : String :=
  let lines := pySplitLines content
  let p := splitHeader lines
  let body := sliceStage keep p.2
  let body :=
    if givenDate sd || givenDate ed then body.filter (keepLine sd ed)
    else body
  String.intercalate "\n" (p.1 ++ body)

/-- Operation `prune_conversation` on one log file (`none` = absent file):
returns `false`, leaving the file unchanged, when the log is absent or its
content empty; otherwise rewrites the pruned content and returns `true`. -/
def pruneConversation (file : Option String) (keep : Option Int)
    (sd ed : Option String) : Bool × Option String :=
  match file with
  | none => (false, none)
  | some content =>
    if content = "" then (false, some content)
    else (true, some (pruneContent content keep sd ed))

/-- Left-to-right non-overlapping replacement of a nonempty pattern on
character lists, with a fuel argument (one unit per consumed character) to
keep the recursion structural. -/
def replaceAllGo (pat rep : List Char) : Nat → List Char → List Char
  | _, [] => []
  | 0, l => l
  | fuel + 1, c :: rest =>
    if !pat.isEmpty && listStartsWith (c :: rest) pat then
      rep ++ replaceAllGo pat rep fuel (rest.drop (pat.length - 1))
    else c :: replaceAllGo pat rep fuel rest

/-- Python `s.replace(pat, rep)` for a nonempty pattern: every occurrence,
scanned left to right without overlap. -/
def pyReplace (s pat rep : String) : String :=
  String.mk (replaceAllGo pat.data rep.data s.data.length s.data)

/-- Renamed file name used by `move_conversations` on a name collision:
Python `log_name.replace(".txt", "") + "_merged_" + timestamp + ".txt"`
(note `str.replace` removes every occurrence of `.txt`). -/
def renamedName (ts n : String) : String :=
  pyReplace n ".txt" "" ++ "_merged_" ++ ts ++ ".txt"

/-- Loop of `move_conversations` over the listed source log names: each log
is copied to the target directory — under the `_merged_` name when the plain
name currently exists there — and then removed from the source; the copy
does not re-check the renamed name, so it overwrites any file already bearing
it. -/
def moveConvGo (ts tgtPath : String) :
    List String → LogDir → LogDir → List String × LogDir × LogDir
  | [], s, t => ([], s, t)
  | n :: rest, s, t =>
    let content := (lookupKV s n).getD ""
    let tname := if (lookupKV t n).isSome then renamedName ts n else n
    let p := moveConvGo ts tgtPath rest (eraseKV s n) (setKV t tname content)
    ((tgtPath ++ "/" ++ tname) :: p.1, p.2.1, p.2.2)

/-- The `.txt` file names of a directory listing (`list_files` with the
extension filter). -/
def txtNames (srcDir : LogDir) : List String :=
  (srcDir.map Prod.fst).filter (fun n => strEndsWith n ".txt")

/-- Operation `move_conversations` on the two directories, with `ts` the
`%Y%m%d%H%M%S` timestamp taken at call time: returns the list of target-side
paths and the final source and target directories. -/
def moveConversations (ts tgtU : String) (srcDir tgtDir : LogDir) :
    List String × LogDir × LogDir :=
  moveConvGo ts ("data/logs/" ++ tgtU) (txtNames srcDir) srcDir tgtDir

/-- Operation `append_to_conversation`: raises on a malformed UUID;
otherwise creates the log with a fresh header when absent, then appends the
message as one line, bracket-timestamped when requested. -/
def appendToConversation (st : LogFiles) (now u n message : String)
    (withTs : Bool) : Except Err (String × LogFiles) :=
  if ¬ isValidUuid u then .error .invalidIdentifier
  else
    let dir := (lookupKV st u).getD []
    let name := normalizeLogName n
    let dir :=
      if (lookupKV dir name).isSome then dir
      else setKV dir name
        ("=== Conversation started on " ++ now ++ " ===\n\n")
    let content := (lookupKV dir name).getD ""
    let formatted :=
      if withTs then "[" ++ now ++ "] " ++ message ++ "\n"
      else message ++ "\n"
    .ok (logPath u n, setKV st u (setKV dir name (content ++ formatted)))

/-- Operation `list_conversations`: raises on a malformed UUID; otherwise
the `.txt` file names of the user's directory with the extension stripped
(Python `file.replace(".txt", "")`). -/
def listConversations (st : LogFiles) (u : String) :
    Except Err (List String) :=
  if ¬ isValidUuid u then .error .invalidIdentifier
  else
    .ok ((txtNames ((lookupKV st u).getD [])).map
      (fun n => pyReplace n ".txt" ""))

/-- Operation `store_multi_user_conversation`: raises `Empty` on no
participants and `InvalidIdentifier` when any UUID is malformed; otherwise
prepends the multi-user banner when the stripped content does not already
start with `===`, and writes the same content into every participant's
namespace, collecting the paths. -/
def storeMultiUserConversation (st : LogFiles) (now : String)
    (uuids : List String) (n content : String) :
    Except Err (List String × LogFiles) :=
  if uuids.isEmpty then .error .emptyParticipants
  else if uuids.any (fun u => !(isValidUuid u)) then .error .invalidIdentifier
  else
    let content' :=
      if (pyStrip content).startsWith "===" then content
      else
        "=== Multi-user conversation started on " ++ now ++ " ===\n" ++
          "=== Participants: " ++ String.intercalate ", " uuids ++
          " ===\n\n" ++ content
    .ok (uuids.foldl
      (fun acc u =>
        (acc.1 ++ [logPath u n],
         setKV acc.2 u
           (setKV ((lookupKV acc.2 u).getD []) (normalizeLogName n)
             content')))
      ([], st))

/-- Operation `move_conversations` at the store level: the validation and
same-identifier checks, then the directory-level relocation written back
into the logs tree. -/
def moveConversationsOp (st : LogFiles) (ts src tgt : String) :
    Except Err (List String × LogFiles) :=
  if ¬ isValidUuid src ∨ ¬ isValidUuid tgt then .error .invalidIdentifier
  else if src = tgt then .error .sameIdentifier
  else
    let r := moveConversations ts tgt ((lookupKV st src).getD [])
      ((lookupKV st tgt).getD [])
    .ok (r.1, setKV (setKV st src r.2.1) tgt r.2.2)

/-- Operation `prune_conversation` at the store level: raises on a malformed
UUID; returns `false` when the log is absent or its content empty, otherwise
rewrites the pruned content and returns `true`. -/
def pruneConversationOp (st : LogFiles) (u n : String) (keep : Option Int)
    (sd ed : Option String) : Except Err (Bool × LogFiles) :=
  if ¬ isValidUuid u then .error .invalidIdentifier
  else
    let dir := (lookupKV st u).getD []
    let name := normalizeLogName n
    match lookupKV dir name with
    | none => .ok (false, st)
    | some content =>
      if content = "" then .ok (false, st)
      else
        .ok (true, setKV st u
          (setKV dir name (pruneContent content keep sd ed)))

/-! ## Basic lemmas about the embedding's data structures -/

mutual

theorem Json.beq_refl : ∀ j : Json, Json.beq j j = true
  | .null => rfl
  | .bool b => by simp [Json.beq]
  | .num n => by simp [Json.beq]
  | .str s => by simp [Json.beq]
  | .arr items => by rw [Json.beq]; exact Json.beqList_refl items
  | .obj fields => by rw [Json.beq]; exact Json.beqFields_refl fields

theorem Json.beqList_refl : ∀ l : List Json, Json.beqList l l = true
  | [] => rfl
  | j :: rest => by
    rw [Json.beqList, Json.beq_refl j, Json.beqList_refl rest]; rfl

theorem Json.beqFields_refl :
    ∀ l : List (String × Json), Json.beqFields l l = true
  | [] => rfl
  | (k, v) :: rest => by
    rw [Json.beqFields, Json.beq_refl v, Json.beqFields_refl rest]; simp

end

theorem lookupKV_setKV_self {α : Type} (kvs : List (String × α)) (k : String)
    (v : α) : lookupKV (setKV kvs k v) k = some v := by
  induction kvs with
  | nil => simp [setKV, lookupKV]
  | cons kv rest ih =>
    obtain ⟨k', v'⟩ := kv
    by_cases h : k' = k <;> simp [setKV, lookupKV, h, ih]

theorem lookupKV_setKV_other {α : Type} (kvs : List (String × α))
    (k g : String) (v : α) (h : g ≠ k) :
    lookupKV (setKV kvs k v) g = lookupKV kvs g := by
  induction kvs with
  | nil =>
    have hkg : ¬ k = g := fun hh => h hh.symm
    simp [setKV, lookupKV, hkg]
  | cons kv rest ih =>
    obtain ⟨k', v'⟩ := kv
    by_cases h1 : k' = k
    · subst h1
      have hkg : ¬ k' = g := fun hh => h hh.symm
      simp [setKV, lookupKV, hkg]
    · by_cases h2 : k' = g <;> simp [setKV, lookupKV, h1, h2, ih, h]

theorem lookupKV_eraseKV_other {α : Type} (kvs : List (String × α))
    (k g : String) (h : g ≠ k) :
    lookupKV (eraseKV kvs k) g = lookupKV kvs g := by
  induction kvs with
  | nil => simp [eraseKV]
  | cons kv rest ih =>
    obtain ⟨k', v'⟩ := kv
    by_cases h1 : k' = k
    · subst h1
      have hkg : ¬ k' = g := fun hh => h hh.symm
      simp [eraseKV, lookupKV, hkg]
    · by_cases h2 : k' = g <;> simp [eraseKV, lookupKV, h1, h2, ih, h]

theorem lookupKV_eq_none_of_not_mem {α : Type} (kvs : List (String × α))
    (k : String) (h : k ∉ kvs.map Prod.fst) : lookupKV kvs k = none := by
  induction kvs with
  | nil => rfl
  | cons kv rest ih =>
    obtain ⟨k', v'⟩ := kv
    simp only [List.map_cons, List.mem_cons] at h
    push_neg at h
    simp [lookupKV, Ne.symm h.1, ih h.2]

theorem lookupKV_isSome_of_mem {α : Type} (kvs : List (String × α))
    (k : String) (v : α) (h : (k, v) ∈ kvs) :
    (lookupKV kvs k).isSome = true := by
  induction kvs with
  | nil => simp at h
  | cons kv rest ih =>
    obtain ⟨k', v'⟩ := kv
    rcases List.mem_cons.mp h with h1 | h2
    · cases h1; simp [lookupKV]
    · by_cases hk : k' = k <;> simp [lookupKV, hk, ih h2]

/-- Lookup after a unique-keyed decomposition: the first binding of `k`. -/
theorem lookupKV_append_not_mem {α : Type} (l₁ l₂ : List (String × α))
    (k : String) (h : k ∉ l₁.map Prod.fst) :
    lookupKV (l₁ ++ l₂) k = lookupKV l₂ k := by
  induction l₁ with
  | nil => rfl
  | cons kv rest ih =>
    obtain ⟨k', v'⟩ := kv
    simp only [List.map_cons, List.mem_cons] at h
    push_neg at h
    simp [lookupKV, Ne.symm h.1, ih h.2]

theorem setKV_lookup_id {α : Type} (kvs : List (String × α)) (k : String)
    (o : α) (h : lookupKV kvs k = some o) : setKV kvs k o = kvs := by
  induction kvs with
  | nil => simp [lookupKV] at h
  | cons kv rest ih =>
    obtain ⟨k', v'⟩ := kv
    by_cases hk : k' = k
    · subst hk
      simp [lookupKV] at h
      simp [setKV, h]
    · simp only [lookupKV, if_neg hk] at h
      simp [setKV, hk, ih h]

/-- A successful lookup in a unique-keyed association list splits it around
the found binding, with the key absent on both sides. -/
theorem lookupKV_decomp {α : Type} (kvs : List (String × α)) (k : String)
    (v : α) (hnd : (kvs.map Prod.fst).Nodup) (h : lookupKV kvs k = some v) :
    ∃ l₁ l₂, kvs = l₁ ++ (k, v) :: l₂ ∧ k ∉ l₁.map Prod.fst ∧
      k ∉ l₂.map Prod.fst := by
  induction kvs with
  | nil => simp [lookupKV] at h
  | cons kv rest ih =>
    obtain ⟨k', v'⟩ := kv
    simp only [List.map_cons, List.nodup_cons] at hnd
    by_cases hk : k' = k
    · subst hk
      simp [lookupKV] at h
      subst h
      exact ⟨[], rest, rfl, by simp, hnd.1⟩
    · simp only [lookupKV, if_neg hk] at h
      obtain ⟨l₁, l₂, heq, h1, h2⟩ := ih hnd.2 h
      exact ⟨(k', v') :: l₁, l₂, by simp [heq], by
        simp only [List.map_cons, List.mem_cons]
        push_neg
        exact ⟨fun hh => hk hh.symm, h1⟩, h2⟩

/-! ## Value-level characterization of the merge steps -/

/-- The value a category-merge step leaves under the processed sub-field, as
a function of the target category's current value there (`none` = absent);
an outer `none` models a raised exception. -/
def fieldResult (now : String) (srcCat : List (String × Json)) (f : String)
    (fv : Json) (old : Option Json) : Option Json :=
  if f = "last_modified" then some (.str now)
  else
    match old with
    | none =>
      if f = "total_conversations" then
        pyAdd (.num 0) ((lookupKV srcCat f).getD (.num 0))
      else some fv
    | some o =>
      if f = "total_conversations" then
        pyAdd o ((lookupKV srcCat f).getD (.num 0))
      else
        match fv with
        | .obj fkvs =>
          if (lookupKV fkvs "date_added").isSome then
            match pyContains "date_added" o with
            | none => none
            | some true =>
              match pyGetItem (.obj fkvs) "date_added", pyGetItem o "date_added" with
              | some sda, some tda =>
                match pyGt sda tda with
                | some true => some (.obj fkvs)
                | some false => some o
                | none => none
              | _, _ => none
            | some false => some o
          else some o
        | .arr sl =>
          match o with
          | .arr tl => listMergeField f tl sl
          | _ => some o
        | _ => some o

/-- A category-merge step only rewrites the processed sub-field, and writes
exactly the `fieldResult` value there (writing a value back over itself when
the original code leaves the entry untouched). -/
theorem mergeCatField_spec (now : String) (srcCat acc : List (String × Json))
    (f : String) (fv : Json) :
    mergeCatField now srcCat acc f fv =
      (fieldResult now srcCat f fv (lookupKV acc f)).map (setKV acc f) := by
  by_cases hlm : f = "last_modified"
  · subst hlm; simp [mergeCatField, fieldResult]
  · cases hak : lookupKV acc f with
    | none =>
      by_cases htc : f = "total_conversations"
      · subst htc
        cases hpa : pyAdd (.num 0) ((lookupKV srcCat "total_conversations").getD (.num 0)) <;>
          simp [mergeCatField, fieldResult, hlm, hak, hpa]
      · simp [mergeCatField, fieldResult, hlm, hak, htc]
    | some o =>
      by_cases htc : f = "total_conversations"
      · subst htc
        cases hpa : pyAdd o ((lookupKV srcCat "total_conversations").getD (.num 0)) <;>
          simp [mergeCatField, fieldResult, hlm, hak, hpa]
      · cases fv with
        | obj fkvs =>
          by_cases hda : (lookupKV fkvs "date_added").isSome
          · cases hc : pyContains "date_added" o with
            | none => simp [mergeCatField, fieldResult, hlm, hak, htc, hda, hc]
            | some b =>
              cases b
              · simp [mergeCatField, fieldResult, hlm, hak, htc, hda, hc,
                  setKV_lookup_id acc f o hak]
              · cases hsda : pyGetItem (Json.obj fkvs) "date_added" with
                | none => simp [mergeCatField, fieldResult, hlm, hak, htc, hda, hc, hsda]
                | some sda =>
                  cases htda : pyGetItem o "date_added" with
                  | none => simp [mergeCatField, fieldResult, hlm, hak, htc, hda, hc, hsda, htda]
                  | some tda =>
                    cases hgt : pyGt sda tda with
                    | none => simp [mergeCatField, fieldResult, hlm, hak, htc, hda, hc, hsda, htda, hgt]
                    | some g =>
                      cases g <;>
                        simp [mergeCatField, fieldResult, hlm, hak, htc, hda, hc,
                          hsda, htda, hgt, setKV_lookup_id acc f o hak]
          · simp [mergeCatField, fieldResult, hlm, hak, htc, hda,
              setKV_lookup_id acc f o hak]
        | arr sl =>
          cases o with
          | arr tl =>
            cases hlf : listMergeField f tl sl <;>
              simp [mergeCatField, fieldResult, hlm, hak, htc, hlf]
          | null => simp [mergeCatField, fieldResult, hlm, hak, htc, setKV_lookup_id acc f _ hak]
          | bool b => simp [mergeCatField, fieldResult, hlm, hak, htc, setKV_lookup_id acc f _ hak]
          | num n => simp [mergeCatField, fieldResult, hlm, hak, htc, setKV_lookup_id acc f _ hak]
          | str s => simp [mergeCatField, fieldResult, hlm, hak, htc, setKV_lookup_id acc f _ hak]
          | obj okvs => simp [mergeCatField, fieldResult, hlm, hak, htc, setKV_lookup_id acc f _ hak]
        | null => simp [mergeCatField, fieldResult, hlm, hak, htc, setKV_lookup_id acc f _ hak]
        | bool b => simp [mergeCatField, fieldResult, hlm, hak, htc, setKV_lookup_id acc f _ hak]
        | num n => simp [mergeCatField, fieldResult, hlm, hak, htc, setKV_lookup_id acc f _ hak]
        | str s => simp [mergeCatField, fieldResult, hlm, hak, htc, setKV_lookup_id acc f _ hak]

/-- The value a top-level merge step leaves under the processed key, as a
function of the result's current value there. -/
def keyResult (now : String) (v : Json) (old : Option Json) : Option Json :=
  match old with
  | none => some v
  | some o =>
    match v, o with
    | .arr sl, .arr tl => some (.arr (mergeLists tl sl))
    | .obj sCat, .obj tCat => (mergeCat now tCat sCat).map .obj
    | _, _ => some o

/-- A top-level merge step on a key other than `uuid`/`created` only rewrites
the processed key, and writes exactly the `keyResult` value there. -/
theorem mergeKeyStep_spec (now : String) (res : List (String × Json))
    (k : String) (v : Json) (hk : ¬(k = "uuid" ∨ k = "created")) :
    mergeKeyStep now res k v =
      (keyResult now v (lookupKV res k)).map (setKV res k) := by
  cases hrk : lookupKV res k with
  | none => simp [mergeKeyStep, keyResult, hk, hrk]
  | some o =>
    cases v with
    | arr sl =>
      cases o with
      | arr tl => simp [mergeKeyStep, keyResult, hk, hrk]
      | null => simp [mergeKeyStep, keyResult, hk, hrk, setKV_lookup_id res k _ hrk]
      | bool b => simp [mergeKeyStep, keyResult, hk, hrk, setKV_lookup_id res k _ hrk]
      | num n => simp [mergeKeyStep, keyResult, hk, hrk, setKV_lookup_id res k _ hrk]
      | str s => simp [mergeKeyStep, keyResult, hk, hrk, setKV_lookup_id res k _ hrk]
      | obj okvs => simp [mergeKeyStep, keyResult, hk, hrk, setKV_lookup_id res k _ hrk]
    | obj sCat =>
      cases o with
      | obj tCat =>
        cases hmc : mergeCat now tCat sCat <;>
          simp [mergeKeyStep, keyResult, hk, hrk, hmc]
      | null => simp [mergeKeyStep, keyResult, hk, hrk, setKV_lookup_id res k _ hrk]
      | bool b => simp [mergeKeyStep, keyResult, hk, hrk, setKV_lookup_id res k _ hrk]
      | num n => simp [mergeKeyStep, keyResult, hk, hrk, setKV_lookup_id res k _ hrk]
      | str s => simp [mergeKeyStep, keyResult, hk, hrk, setKV_lookup_id res k _ hrk]
      | arr tl => simp [mergeKeyStep, keyResult, hk, hrk, setKV_lookup_id res k _ hrk]
    | null => simp [mergeKeyStep, keyResult, hk, hrk, setKV_lookup_id res k _ hrk]
    | bool b => simp [mergeKeyStep, keyResult, hk, hrk, setKV_lookup_id res k _ hrk]
    | num n => simp [mergeKeyStep, keyResult, hk, hrk, setKV_lookup_id res k _ hrk]
    | str s => simp [mergeKeyStep, keyResult, hk, hrk, setKV_lookup_id res k _ hrk]

theorem mergeKeyStep_skip (now : String) (res : List (String × Json))
    (k : String) (v : Json) (hk : k = "uuid" ∨ k = "created") :
    mergeKeyStep now res k v = some res := by
  simp [mergeKeyStep, hk]

/-- Lookup of a fixed sub-field after folding the category merge over a
unique-keyed source field list: untouched when the sub-field is not among the
source's fields, otherwise determined by `fieldResult` applied to the value
the accumulator held when the sub-field was processed. -/
theorem mergeCatGo_lookup (now : String) (srcCat : List (String × Json))
    (f : String) :
    ∀ (fields acc m : List (String × Json)), (fields.map Prod.fst).Nodup →
      mergeCatGo now srcCat acc fields = some m →
      (lookupKV fields f = none → lookupKV m f = lookupKV acc f) ∧
      (∀ fv, lookupKV fields f = some fv →
        ∃ w, fieldResult now srcCat f fv (lookupKV acc f) = some w ∧
          lookupKV m f = some w) := by
  intro fields
  induction fields with
  | nil =>
    intro acc m _ hm
    simp only [mergeCatGo, Option.some.injEq] at hm
    subst hm
    exact ⟨fun _ => rfl, fun fv hfv => by simp [lookupKV] at hfv⟩
  | cons gv rest ih =>
    intro acc m hnd hm
    obtain ⟨g, gval⟩ := gv
    simp only [List.map_cons, List.nodup_cons] at hnd
    simp only [mergeCatGo] at hm
    cases hstep : mergeCatField now srcCat acc g gval with
    | none =>
      rw [hstep, Option.none_bind] at hm
      exact Option.noConfusion hm
    | some acc2 =>
      rw [hstep, Option.some_bind] at hm
      rw [mergeCatField_spec] at hstep
      have hex : ∃ w0, fieldResult now srcCat g gval (lookupKV acc g) = some w0 ∧
          acc2 = setKV acc g w0 := by
        cases hfr : fieldResult now srcCat g gval (lookupKV acc g) with
        | none => rw [hfr] at hstep; simp at hstep
        | some w0 =>
          rw [hfr] at hstep
          simp only [Option.map_some', Option.some.injEq] at hstep
          exact ⟨w0, rfl, hstep.symm⟩
      obtain ⟨w0, hw0, hacc2⟩ := hex
      by_cases hgf : g = f
      · subst hgf
        have hrest : lookupKV rest g = none :=
          lookupKV_eq_none_of_not_mem rest g hnd.1
        have hih := (ih acc2 m hnd.2 hm).1 hrest
        constructor
        · intro hnone; simp [lookupKV] at hnone
        · intro fv hfv
          have hfv' : gval = fv := by simpa [lookupKV] using hfv
          subst hfv'
          refine ⟨w0, hw0, ?_⟩
          rw [hih, hacc2, lookupKV_setKV_self]
      · have hacc2f : lookupKV acc2 f = lookupKV acc f := by
          rw [hacc2]
          exact lookupKV_setKV_other acc g f w0 (fun hh => hgf hh.symm)
        have hih := ih acc2 m hnd.2 hm
        constructor
        · intro hnone
          have h2 : lookupKV rest f = none := by
            simpa [lookupKV, hgf] using hnone
          rw [hih.1 h2, hacc2f]
        · intro fv hfv
          have h2 : lookupKV rest f = some fv := by
            simpa [lookupKV, hgf] using hfv
          obtain ⟨w, hw, hmf⟩ := hih.2 fv h2
          rw [hacc2f] at hw
          exact ⟨w, hw, hmf⟩

/-- Lookup of a fixed non-`uuid`/`created` key after folding the top-level
merge over a unique-keyed source document. -/
theorem mergeGo_lookup (now : String) (k : String) (hk1 : k ≠ "uuid")
    (hk2 : k ≠ "created") :
    ∀ (src acc m : List (String × Json)), (src.map Prod.fst).Nodup →
      mergeGo now acc src = some m →
      (lookupKV src k = none → lookupKV m k = lookupKV acc k) ∧
      (∀ v, lookupKV src k = some v →
        ∃ w, keyResult now v (lookupKV acc k) = some w ∧
          lookupKV m k = some w) := by
  intro src
  induction src with
  | nil =>
    intro acc m _ hm
    simp only [mergeGo, Option.some.injEq] at hm
    subst hm
    exact ⟨fun _ => rfl, fun v hv => by simp [lookupKV] at hv⟩
  | cons gv rest ih =>
    intro acc m hnd hm
    obtain ⟨g, gval⟩ := gv
    simp only [List.map_cons, List.nodup_cons] at hnd
    simp only [mergeGo] at hm
    cases hstep : mergeKeyStep now acc g gval with
    | none =>
      rw [hstep, Option.none_bind] at hm
      exact Option.noConfusion hm
    | some acc2 =>
      rw [hstep, Option.some_bind] at hm
      by_cases hskip : g = "uuid" ∨ g = "created"
      · rw [mergeKeyStep_skip now acc g gval hskip] at hstep
        have heq : acc = acc2 := Option.some.inj hstep
        subst heq
        have hgk : ¬ g = k := by
          rcases hskip with h | h <;> subst h
          · exact fun hh => hk1 hh.symm
          · exact fun hh => hk2 hh.symm
        have hih := ih acc m hnd.2 hm
        constructor
        · intro hnone
          exact hih.1 (by simpa [lookupKV, hgk] using hnone)
        · intro v hv
          exact hih.2 v (by simpa [lookupKV, hgk] using hv)
      · rw [mergeKeyStep_spec now acc g gval hskip] at hstep
        have hex : ∃ w0, keyResult now gval (lookupKV acc g) = some w0 ∧
            acc2 = setKV acc g w0 := by
          cases hkr : keyResult now gval (lookupKV acc g) with
          | none => rw [hkr] at hstep; simp at hstep
          | some w0 =>
            rw [hkr] at hstep
            simp only [Option.map_some', Option.some.injEq] at hstep
            exact ⟨w0, rfl, hstep.symm⟩
        obtain ⟨w0, hw0, hacc2⟩ := hex
        by_cases hgk : g = k
        · subst hgk
          have hrest : lookupKV rest g = none :=
            lookupKV_eq_none_of_not_mem rest g hnd.1
          have hih := (ih acc2 m hnd.2 hm).1 hrest
          constructor
          · intro hnone; simp [lookupKV] at hnone
          · intro v hv
            have hv' : gval = v := by simpa [lookupKV] using hv
            subst hv'
            refine ⟨w0, hw0, ?_⟩
            rw [hih, hacc2, lookupKV_setKV_self]
        · have hacc2k : lookupKV acc2 k = lookupKV acc k := by
            rw [hacc2]
            exact lookupKV_setKV_other acc g k w0 (fun hh => hgk hh.symm)
          have hih := ih acc2 m hnd.2 hm
          constructor
          · intro hnone
            have h2 : lookupKV rest k = none := by
              simpa [lookupKV, hgk] using hnone
            rw [hih.1 h2, hacc2k]
          · intro v hv
            have h2 : lookupKV rest k = some v := by
              simpa [lookupKV, hgk] using hv
            obtain ⟨w, hw, hmk⟩ := hih.2 v h2
            rw [hacc2k] at hw
            exact ⟨w, hw, hmk⟩

/-- Lookup of an ordinary key (not `uuid`, `created` or `last_modified`) in a
successful full merge, reduced to `keyResult` over the original documents. -/
theorem mergeUserData_lookup (now k : String) (hk1 : k ≠ "uuid")
    (hk2 : k ≠ "created") (hk3 : k ≠ "last_modified")
    (src tgt res : List (String × Json)) (hnd : (src.map Prod.fst).Nodup)
    (hm : mergeUserData now src tgt = some res) :
    (lookupKV src k = none → lookupKV res k = lookupKV tgt k) ∧
    (∀ v, lookupKV src k = some v →
      ∃ w, keyResult now v (lookupKV tgt k) = some w ∧
        lookupKV res k = some w) := by
  have hinit : lookupKV (setKV tgt "last_modified" (Json.str now)) k =
      lookupKV tgt k :=
    lookupKV_setKV_other tgt "last_modified" k _ hk3
  have h := mergeGo_lookup now k hk1 hk2 src
    (setKV tgt "last_modified" (Json.str now)) res hnd hm
  rw [hinit] at h
  exact h

/-- The fold of the top-level merge never touches wholly-skipped keys
(`uuid` and `created`). -/
theorem mergeGo_preserves_skip (now : String) (k : String)
    (hk : k = "uuid" ∨ k = "created") :
    ∀ (src acc m : List (String × Json)), mergeGo now acc src = some m →
      lookupKV m k = lookupKV acc k := by
  intro src
  induction src with
  | nil =>
    intro acc m hm
    simp only [mergeGo, Option.some.injEq] at hm
    subst hm; rfl
  | cons gv rest ih =>
    intro acc m hm
    obtain ⟨g, gval⟩ := gv
    simp only [mergeGo] at hm
    cases hstep : mergeKeyStep now acc g gval with
    | none =>
      rw [hstep, Option.none_bind] at hm
      exact Option.noConfusion hm
    | some acc2 =>
      rw [hstep, Option.some_bind] at hm
      by_cases hskip : g = "uuid" ∨ g = "created"
      · rw [mergeKeyStep_skip now acc g gval hskip] at hstep
        have heq : acc = acc2 := Option.some.inj hstep
        subst heq
        exact ih acc m hm
      · rw [mergeKeyStep_spec now acc g gval hskip] at hstep
        have hgk : g ≠ k := by
          intro hh
          subst hh
          exact hskip hk
        cases hkr : keyResult now gval (lookupKV acc g) with
        | none =>
          rw [hkr] at hstep
          exact Option.noConfusion hstep
        | some w0 =>
          rw [hkr] at hstep
          simp only [Option.map_some', Option.some.injEq] at hstep
          rw [ih acc2 m hm, ← hstep, lookupKV_setKV_other acc g k w0 (Ne.symm hgk)]

/-- A merge step never changes a `last_modified` entry that already holds the
current date: when the processed key is `last_modified` itself, its stored
value is a string, so both the list/list and dict/dict branches fall through. -/
theorem keyResult_lm (now : String) (v : Json) :
    keyResult now v (some (Json.str now)) = some (Json.str now) := by
  cases v <;> rfl

/-- The fold of the top-level merge keeps `last_modified` at the current
date. -/
theorem mergeGo_lm (now : String) :
    ∀ (src acc m : List (String × Json)), mergeGo now acc src = some m →
      lookupKV acc "last_modified" = some (Json.str now) →
      lookupKV m "last_modified" = some (Json.str now) := by
  intro src
  induction src with
  | nil =>
    intro acc m hm hacc
    simp only [mergeGo, Option.some.injEq] at hm
    subst hm; exact hacc
  | cons gv rest ih =>
    intro acc m hm hacc
    obtain ⟨g, gval⟩ := gv
    simp only [mergeGo] at hm
    cases hstep : mergeKeyStep now acc g gval with
    | none =>
      rw [hstep, Option.none_bind] at hm
      exact Option.noConfusion hm
    | some acc2 =>
      rw [hstep, Option.some_bind] at hm
      by_cases hskip : g = "uuid" ∨ g = "created"
      · rw [mergeKeyStep_skip now acc g gval hskip] at hstep
        have heq : acc = acc2 := Option.some.inj hstep
        subst heq
        exact ih acc m hm hacc
      · rw [mergeKeyStep_spec now acc g gval hskip] at hstep
        by_cases hglm : g = "last_modified"
        · subst hglm
          rw [hacc, keyResult_lm] at hstep
          simp only [Option.map_some', Option.some.injEq] at hstep
          refine ih acc2 m hm ?_
          rw [← hstep, lookupKV_setKV_self]
        · cases hkr : keyResult now gval (lookupKV acc g) with
          | none =>
            rw [hkr] at hstep
            exact Option.noConfusion hstep
          | some w0 =>
            rw [hkr] at hstep
            simp only [Option.map_some', Option.some.injEq] at hstep
            refine ih acc2 m hm ?_
            rw [← hstep,
              lookupKV_setKV_other acc g "last_modified" w0 (Ne.symm hglm), hacc]

/-- A successful full merge stamps `last_modified` to the current date. -/
theorem mergeUserData_lm (now : String) (src tgt res : List (String × Json))
    (hm : mergeUserData now src tgt = some res) :
    lookupKV res "last_modified" = some (Json.str now) :=
  mergeGo_lm now src (setKV tgt "last_modified" (Json.str now)) res hm
    (lookupKV_setKV_self tgt "last_modified" (Json.str now))

/-- A successful full merge keeps the target's `uuid` and `created`. -/
theorem mergeUserData_preserves_skip (now : String) (k : String)
    (hk : k = "uuid" ∨ k = "created") (src tgt res : List (String × Json))
    (hm : mergeUserData now src tgt = some res) :
    lookupKV res k = lookupKV tgt k := by
  have hk3 : k ≠ "last_modified" := by
    rcases hk with h | h <;> subst h <;> intro hh <;> exact absurd hh (by decide)
  rw [mergeGo_preserves_skip now k hk src _ res hm,
    lookupKV_setKV_other tgt "last_modified" k _ hk3]

/-! ## Claim theorems -/

/-- C1: in a profile merge, for a category key present in both documents and
a sub-field present in both categories (not named `last_modified` or
`total_conversations`, which earlier branches capture) whose source and
target values are wrapped Facts carrying `date_added` strings, the merged
document keeps whichever of the two values has the lexicographically later
`date_added`; the source's Fact replaces the target's exactly when the
source's `date_added` compares strictly later. -/
theorem merge_dated_fact_later_wins
    (now k f sda tda : String) (src tgt res sCat tCat : List (String × Json))
    (fkvs okvs : List (String × Json))
    (hm : mergeUserData now src tgt = some res)
    (hnds : (src.map Prod.fst).Nodup) (hndc : (sCat.map Prod.fst).Nodup)
    (hk1 : k ≠ "uuid") (hk2 : k ≠ "created") (hk3 : k ≠ "last_modified")
    (hsk : lookupKV src k = some (.obj sCat))
    (htk : lookupKV tgt k = some (.obj tCat))
    (hf1 : f ≠ "last_modified") (hf2 : f ≠ "total_conversations")
    (hsf : lookupKV sCat f = some (.obj fkvs))
    (htf : lookupKV tCat f = some (.obj okvs))
    (hsda : lookupKV fkvs "date_added" = some (.str sda))
    (htda : lookupKV okvs "date_added" = some (.str tda)) :
    ∃ m, lookupKV res k = some (.obj m) ∧
      lookupKV m f = some (if pyStrLt tda sda then Json.obj fkvs
        else Json.obj okvs) := by
  obtain ⟨w, hw, hres⟩ :=
    (mergeUserData_lookup now k hk1 hk2 hk3 src tgt res hnds hm).2 _ hsk
  rw [htk] at hw
  simp only [keyResult] at hw
  obtain ⟨m, hmc, rfl⟩ : ∃ m, mergeCat now tCat sCat = some m ∧ w = Json.obj m := by
    cases hc : mergeCat now tCat sCat with
    | none => rw [hc] at hw; exact Option.noConfusion hw
    | some m =>
      rw [hc] at hw
      simp only [Option.map_some', Option.some.injEq] at hw
      exact ⟨m, rfl, hw.symm⟩
  obtain ⟨w', hw', hmf⟩ :=
    (mergeCatGo_lookup now sCat f sCat tCat m hndc hmc).2 _ hsf
  rw [htf] at hw'
  simp only [fieldResult, if_neg hf1, if_neg hf2, hsda, pyContains, htda,
    Option.isSome_some, pyGetItem, pyGt, Json.asInt?] at hw'
  by_cases hlt : pyStrLt tda sda = true
  · simp [hlt] at hw'
    refine ⟨m, hres, ?_⟩
    rw [hmf, ← hw']
    simp [hlt]
  · simp [hlt] at hw'
    refine ⟨m, hres, ?_⟩
    rw [hmf, ← hw']
    simp [hlt]

/-- Witness for C1, on the spec's round-trip example: source `prefs.color`
red dated 2024-01-01, target blue dated 2024-06-01 — the later-dated target
Fact wins. -/
theorem merge_dated_fact_later_wins_witness :
    ∃ m, lookupKV [("uuid", Json.str "t"),
        ("prefs", Json.obj [("color", Json.obj [("value", Json.str "blue"),
          ("date_added", Json.str "2024-06-01")])]),
        ("last_modified", Json.str "2024-07-01")] "prefs" = some (.obj m) ∧
      lookupKV m "color" = some (if pyStrLt "2024-06-01" "2024-01-01" then
        Json.obj [("value", Json.str "red"), ("date_added", Json.str "2024-01-01")]
      else
        Json.obj [("value", Json.str "blue"), ("date_added", Json.str "2024-06-01")]) :=
  merge_dated_fact_later_wins "2024-07-01" "prefs" "color"
    "2024-01-01" "2024-06-01"
    [("uuid", Json.str "s"),
     ("prefs", Json.obj [("color", Json.obj [("value", Json.str "red"),
       ("date_added", Json.str "2024-01-01")])])]
    [("uuid", Json.str "t"),
     ("prefs", Json.obj [("color", Json.obj [("value", Json.str "blue"),
       ("date_added", Json.str "2024-06-01")])])]
    [("uuid", Json.str "t"),
     ("prefs", Json.obj [("color", Json.obj [("value", Json.str "blue"),
       ("date_added", Json.str "2024-06-01")])]),
     ("last_modified", Json.str "2024-07-01")]
    [("color", Json.obj [("value", Json.str "red"),
      ("date_added", Json.str "2024-01-01")])]
    [("color", Json.obj [("value", Json.str "blue"),
      ("date_added", Json.str "2024-06-01")])]
    [("value", Json.str "red"), ("date_added", Json.str "2024-01-01")]
    [("value", Json.str "blue"), ("date_added", Json.str "2024-06-01")]
    (by rfl) (by decide) (by decide) (by decide) (by decide) (by decide)
    (by rfl) (by rfl) (by decide) (by decide) (by rfl) (by rfl) (by rfl)
    (by rfl)

theorem charListLt_irrefl : ∀ l : List Char, charListLt l l = false
  | [] => rfl
  | c :: rest => by simp [charListLt, charListLt_irrefl rest]

theorem pyStrLt_irrefl (s : String) : pyStrLt s s = false :=
  charListLt_irrefl s.data

/-- C9: in a profile merge, for a category present in both documents whose
`total_conversations` sub-field holds an integer on whichever sides carry it
(at least one), the merged category's `total_conversations` is the exact sum
of the two values, an absent one counting as 0. -/
theorem merge_total_conversations_sum
    (now k : String) (src tgt res sCat tCat : List (String × Json))
    (tO sO : Option Int)
    (hm : mergeUserData now src tgt = some res)
    (hnds : (src.map Prod.fst).Nodup) (hndc : (sCat.map Prod.fst).Nodup)
    (hk1 : k ≠ "uuid") (hk2 : k ≠ "created") (hk3 : k ≠ "last_modified")
    (hsk : lookupKV src k = some (.obj sCat))
    (htk : lookupKV tgt k = some (.obj tCat))
    (htO : lookupKV tCat "total_conversations" = tO.map Json.num)
    (hsO : lookupKV sCat "total_conversations" = sO.map Json.num)
    (hne : tO.isSome ∨ sO.isSome) :
    ∃ m, lookupKV res k = some (.obj m) ∧
      lookupKV m "total_conversations" =
        some (.num (tO.getD 0 + sO.getD 0)) := by
  obtain ⟨w, hw, hres⟩ :=
    (mergeUserData_lookup now k hk1 hk2 hk3 src tgt res hnds hm).2 _ hsk
  rw [htk] at hw
  simp only [keyResult] at hw
  obtain ⟨m, hmc, rfl⟩ : ∃ m, mergeCat now tCat sCat = some m ∧ w = Json.obj m := by
    cases hc : mergeCat now tCat sCat with
    | none => rw [hc] at hw; exact Option.noConfusion hw
    | some m =>
      rw [hc] at hw
      simp only [Option.map_some', Option.some.injEq] at hw
      exact ⟨m, rfl, hw.symm⟩
  have hcat := mergeCatGo_lookup now sCat "total_conversations" sCat tCat m hndc hmc
  cases sO with
  | none =>
    simp only [Option.map_none'] at hsO
    obtain ⟨t, rfl⟩ : ∃ t, tO = some t := by
      rcases hne with h | h
      · exact ⟨tO.get h, (Option.some_get h).symm⟩
      · simp at h
    refine ⟨m, hres, ?_⟩
    rw [hcat.1 hsO, htO]
    simp
  | some s =>
    simp only [Option.map_some'] at hsO
    obtain ⟨w', hw', hmf⟩ := hcat.2 _ hsO
    rw [htO] at hw'
    cases tO with
    | none =>
      simp only [Option.map_none'] at hw'
      simp only [fieldResult, reduceIte, hsO, Option.getD_some, pyAdd,
        Json.asInt?, Option.some.injEq] at hw'
      refine ⟨m, hres, ?_⟩
      rw [hmf, ← hw']
      simp
    | some t =>
      simp only [Option.map_some'] at hw'
      simp only [fieldResult, reduceIte, hsO, Option.getD_some, pyAdd,
        Json.asInt?, Option.some.injEq] at hw'
      refine ⟨m, hres, ?_⟩
      rw [hmf, ← hw']
      simp

/-- C10 (amended): in a profile merge, for a category sub-field present in
both documents whose source value is a wrapped Fact carrying `date_added`,
the target's existing value is kept unchanged — and the source's Fact
discarded — when the target's value is a container for which Python's
membership test finds no `date_added` (a dict without the key, a string not
containing it, a list without it), or when the two `date_added` strings are
equal.  (When the target's value is a number, boolean or null, the membership
test raises `TypeError` instead and the merge fails.) -/
theorem merge_dated_fact_target_kept
    (now k f : String) (src tgt res sCat tCat fkvs : List (String × Json))
    (old : Json)
    (hm : mergeUserData now src tgt = some res)
    (hnds : (src.map Prod.fst).Nodup) (hndc : (sCat.map Prod.fst).Nodup)
    (hk1 : k ≠ "uuid") (hk2 : k ≠ "created") (hk3 : k ≠ "last_modified")
    (hsk : lookupKV src k = some (.obj sCat))
    (htk : lookupKV tgt k = some (.obj tCat))
    (hf1 : f ≠ "last_modified") (hf2 : f ≠ "total_conversations")
    (hsf : lookupKV sCat f = some (.obj fkvs))
    (htf : lookupKV tCat f = some old)
    (hda : (lookupKV fkvs "date_added").isSome)
    (hcase : pyContains "date_added" old = some false ∨
      (∃ okvs d, old = Json.obj okvs ∧
        lookupKV okvs "date_added" = some (.str d) ∧
        lookupKV fkvs "date_added" = some (.str d))) :
    ∃ m, lookupKV res k = some (.obj m) ∧ lookupKV m f = some old := by
  obtain ⟨w, hw, hres⟩ :=
    (mergeUserData_lookup now k hk1 hk2 hk3 src tgt res hnds hm).2 _ hsk
  rw [htk] at hw
  simp only [keyResult] at hw
  obtain ⟨m, hmc, rfl⟩ : ∃ m, mergeCat now tCat sCat = some m ∧ w = Json.obj m := by
    cases hc : mergeCat now tCat sCat with
    | none => rw [hc] at hw; exact Option.noConfusion hw
    | some m =>
      rw [hc] at hw
      simp only [Option.map_some', Option.some.injEq] at hw
      exact ⟨m, rfl, hw.symm⟩
  obtain ⟨w', hw', hmf⟩ :=
    (mergeCatGo_lookup now sCat f sCat tCat m hndc hmc).2 _ hsf
  rw [htf] at hw'
  rcases hcase with hfalse | ⟨okvs, d, rfl, hoda, hfda⟩
  · simp only [fieldResult, if_neg hf1, if_neg hf2, hda, if_pos, hfalse] at hw'
    refine ⟨m, hres, ?_⟩
    rw [hmf, ← hw']
  · simp only [fieldResult, if_neg hf1, if_neg hf2, hda, if_pos, pyContains,
      hoda, Option.isSome_some, pyGetItem, hfda, pyGt, Json.asInt?,
      pyStrLt_irrefl, Option.some.injEq] at hw'
    refine ⟨m, hres, ?_⟩
    rw [hmf, ← hw']

/-- Witness for C10: equal `date_added` dates on both sides — the target's
Fact survives and the source's is discarded. -/
theorem merge_dated_fact_target_kept_witness :
    ∃ m, lookupKV [("prefs", Json.obj [("color",
        Json.obj [("value", Json.str "blue"),
          ("date_added", Json.str "2024-06-01")])]),
        ("last_modified", Json.str "2024-07-01")] "prefs" = some (.obj m) ∧
      lookupKV m "color" = some (Json.obj [("value", Json.str "blue"),
        ("date_added", Json.str "2024-06-01")]) :=
  merge_dated_fact_target_kept "2024-07-01" "prefs" "color"
    [("prefs", Json.obj [("color", Json.obj [("value", Json.str "red"),
      ("date_added", Json.str "2024-06-01")])])]
    [("prefs", Json.obj [("color", Json.obj [("value", Json.str "blue"),
      ("date_added", Json.str "2024-06-01")])])]
    [("prefs", Json.obj [("color", Json.obj [("value", Json.str "blue"),
      ("date_added", Json.str "2024-06-01")])]),
     ("last_modified", Json.str "2024-07-01")]
    [("color", Json.obj [("value", Json.str "red"),
      ("date_added", Json.str "2024-06-01")])]
    [("color", Json.obj [("value", Json.str "blue"),
      ("date_added", Json.str "2024-06-01")])]
    [("value", Json.str "red"), ("date_added", Json.str "2024-06-01")]
    (Json.obj [("value", Json.str "blue"), ("date_added", Json.str "2024-06-01")])
    (by rfl) (by decide) (by decide) (by decide) (by decide) (by decide)
    (by rfl) (by rfl) (by decide) (by decide) (by rfl) (by rfl) (by rfl)
    (Or.inr ⟨[("value", Json.str "blue"), ("date_added", Json.str "2024-06-01")],
      "2024-06-01", rfl, by rfl, by rfl⟩)

/-- Counterexample for C10 as frozen: when the target's value for the
sub-field is a number — which certainly "lacks a `date_added` key" — the
merge does not keep the target's value; Python's `"date_added" in 42` raises
`TypeError` and the whole merge fails. -/
theorem merge_dated_fact_numeric_target_raises :
    mergeUserData "2024-07-01"
      [("cat", Json.obj [("x", Json.obj [("value", Json.str "sv"),
        ("date_added", Json.str "2024-05-01")])])]
      [("cat", Json.obj [("x", Json.num 42)])] = none := by rfl

/-- Witness for C9: categories with `total_conversations` 3 (source) and 4
(target) merge to exactly 7. -/
theorem merge_total_conversations_sum_witness :
    ∃ m, lookupKV [("stats", Json.obj [("total_conversations", Json.num 7)]),
        ("last_modified", Json.str "2024-07-01")] "stats" = some (.obj m) ∧
      lookupKV m "total_conversations" =
        some (.num ((some (4 : Int)).getD 0 + (some (3 : Int)).getD 0)) :=
  merge_total_conversations_sum "2024-07-01" "stats"
    [("stats", Json.obj [("total_conversations", Json.num 3)])]
    [("stats", Json.obj [("total_conversations", Json.num 4)])]
    [("stats", Json.obj [("total_conversations", Json.num 7)]),
     ("last_modified", Json.str "2024-07-01")]
    [("total_conversations", Json.num 3)]
    [("total_conversations", Json.num 4)]
    (some 4) (some 3)
    (by rfl) (by decide) (by decide) (by decide) (by decide) (by decide)
    (by rfl) (by rfl) (by rfl) (by rfl) (Or.inl (by rfl))

/-- Spec-side description of the top-level list dedup (claim C3): a source
item is appended exactly when it is a wrapped Fact whose `value` appears
neither among the target's wrapped-Fact values nor among the values appended
earlier in the same merge. -/
def dedupNew (seen : List Json) : List Json → List Json
  | [] => []
  | it :: rest =>
    match it with
    | .obj kvs =>
      match lookupKV kvs "value" with
      | some v =>
        if seen.contains v then dedupNew seen rest
        else it :: dedupNew (v :: seen) rest
      | none => dedupNew seen rest
    | _ => dedupNew seen rest

/-- The code's accumulator loop agrees with the spec-side recursion whenever
the two "seen" pools test membership identically. -/
theorem contains_append_single {α : Type} [BEq α] (l : List α) (v w : α) :
    (l ++ [v]).contains w = (l.contains w || (w == v)) := by
  induction l with
  | nil => simp [List.contains_cons]
  | cons a as ih =>
    simp only [List.cons_append, List.contains_cons, ih, Bool.or_assoc]

theorem mergeListsGo_eq_dedupNew :
    ∀ (src seen1 seen2 : List Json),
      (∀ v, seen1.contains v = seen2.contains v) →
      mergeListsGo seen1 src = dedupNew seen2 src := by
  intro src
  induction src with
  | nil => intro seen1 seen2 _; rfl
  | cons it rest ih =>
    intro seen1 seen2 hseen
    cases it with
    | obj kvs =>
      cases hv : lookupKV kvs "value" with
      | none =>
        simp only [mergeListsGo, dedupNew, hv]
        exact ih seen1 seen2 hseen
      | some v =>
        simp only [mergeListsGo, dedupNew, hv, hseen v]
        by_cases hc : seen2.contains v = true
        · simp only [hc, if_true]
          exact ih seen1 seen2 hseen
        · simp only [hc, if_false, Bool.false_eq_true]
          rw [ih (seen1 ++ [v]) (v :: seen2) ?_]
          intro w
          rw [contains_append_single, List.contains_cons, hseen w,
            Bool.or_comm]
    | null => exact ih seen1 seen2 hseen
    | bool b => exact ih seen1 seen2 hseen
    | num n => exact ih seen1 seen2 hseen
    | str s => exact ih seen1 seen2 hseen
    | arr l => exact ih seen1 seen2 hseen

/-- C3: in a profile merge, for a top-level key that is a list in both
documents, the merged value is the target's items followed by exactly those
source items that are wrapped Facts whose `value` occurs neither among the
target's wrapped-Fact values nor among values appended earlier in the same
merge (`dedupNew`); in particular two singleton Fact lists with equal values
merge to a single entry. -/
theorem merge_toplevel_list_dedup
    (now k : String) (src tgt res : List (String × Json))
    (sIt tIt : List Json)
    (hm : mergeUserData now src tgt = some res)
    (hnds : (src.map Prod.fst).Nodup)
    (hk1 : k ≠ "uuid") (hk2 : k ≠ "created") (hk3 : k ≠ "last_modified")
    (hsk : lookupKV src k = some (.arr sIt))
    (htk : lookupKV tgt k = some (.arr tIt)) :
    lookupKV res k = some (.arr (tIt ++ dedupNew (factValues tIt) sIt)) ∧
      (∀ v, mergeLists [Json.obj [("value", v)]] [Json.obj [("value", v)]] =
        [Json.obj [("value", v)]]) := by
  constructor
  · obtain ⟨w, hw, hres⟩ :=
      (mergeUserData_lookup now k hk1 hk2 hk3 src tgt res hnds hm).2 _ hsk
    rw [htk] at hw
    simp only [keyResult, Option.some.injEq] at hw
    rw [hres, ← hw, mergeLists,
      mergeListsGo_eq_dedupNew sIt (factValues tIt) (factValues tIt)
        (fun _ => rfl)]
  · intro v
    have hbeq : (v == v) = true := Json.beq_refl v
    have hfv : factValues [Json.obj [("value", v)]] = [v] := rfl
    have hlook : lookupKV [("value", v)] "value" = some v := rfl
    simp only [mergeLists, hfv, mergeListsGo, hlook, List.contains_cons, hbeq,
      Bool.true_or, if_true, List.append_nil]

/-- Witness for C3, on the spec's dedup example: source list `[{value: x}]`
merged into target list `[{value: x}]` yields exactly one `x` entry. -/
theorem merge_toplevel_list_dedup_witness :
    lookupKV [("topics", Json.arr [Json.obj [("value", Json.str "x")]]),
        ("last_modified", Json.str "2024-07-01")] "topics" =
      some (.arr ([Json.obj [("value", Json.str "x")]] ++
        dedupNew (factValues [Json.obj [("value", Json.str "x")]])
          [Json.obj [("value", Json.str "x")]])) :=
  (merge_toplevel_list_dedup "2024-07-01" "topics"
    [("topics", Json.arr [Json.obj [("value", Json.str "x")]])]
    [("topics", Json.arr [Json.obj [("value", Json.str "x")]])]
    [("topics", Json.arr [Json.obj [("value", Json.str "x")]]),
     ("last_modified", Json.str "2024-07-01")]
    [Json.obj [("value", Json.str "x")]]
    [Json.obj [("value", Json.str "x")]]
    (by rfl) (by decide) (by decide) (by decide) (by decide)
    (by rfl) (by rfl)).1

theorem charListLt_trans :
    ∀ a b c : List Char, charListLt a b = true → charListLt b c = true →
      charListLt a c = true := by
  intro a
  induction a with
  | nil =>
    intro b c hab hbc
    cases c with
    | nil => cases b <;> simp [charListLt] at hab hbc
    | cons z zs => simp [charListLt]
  | cons x xs ih =>
    intro b c hab hbc
    cases b with
    | nil => simp [charListLt] at hab
    | cons y ys =>
      cases c with
      | nil => simp [charListLt] at hbc
      | cons z zs =>
        simp only [charListLt, Bool.or_eq_true, Bool.and_eq_true,
          decide_eq_true_eq] at hab hbc ⊢
        rcases hab with h1 | ⟨h1, h1'⟩
        · rcases hbc with h2 | ⟨h2, h2'⟩
          · exact Or.inl (h1.trans h2)
          · exact Or.inl (h2 ▸ h1)
        · rcases hbc with h2 | ⟨h2, h2'⟩
          · exact Or.inl (h1 ▸ h2)
          · exact Or.inr ⟨h1.trans h2, ih ys zs h1' h2'⟩

theorem charListLt_connex :
    ∀ a b : List Char, charListLt a b = false → charListLt b a = false →
      a = b := by
  intro a
  induction a with
  | nil =>
    intro b hab _
    cases b with
    | nil => rfl
    | cons y ys => simp [charListLt] at hab
  | cons x xs ih =>
    intro b hab hba
    cases b with
    | nil => simp [charListLt] at hba
    | cons y ys =>
      simp only [charListLt, Bool.or_eq_false_iff, Bool.and_eq_false_iff,
        decide_eq_false_iff_not] at hab hba
      have hxy : x.toNat = y.toNat := by
        rcases Nat.lt_trichotomy x.toNat y.toNat with h | h | h
        · exact absurd h hab.1
        · exact h
        · exact absurd h hba.1
      have hxs : charListLt xs ys = false := by
        rcases hab.2 with h | h
        · exact absurd hxy h
        · exact h
      have hys : charListLt ys xs = false := by
        rcases hba.2 with h | h
        · exact absurd hxy.symm h
        · exact h
      have hxy2 : x = y := by
        rw [← Char.ofNat_toNat x, ← Char.ofNat_toNat y, hxy]
      rw [hxy2, ih ys hxs hys]

theorem ddLe_trans (a b c : String × Json)
    (hab : (!(pyStrLt a.1 b.1)) = true) (hbc : (!(pyStrLt b.1 c.1)) = true) :
    (!(pyStrLt a.1 c.1)) = true := by
  simp only [Bool.not_eq_true'] at hab hbc ⊢
  unfold pyStrLt at hab hbc ⊢
  cases hac : charListLt a.1.data c.1.data with
  | false => rfl
  | true =>
    cases hba : charListLt b.1.data a.1.data with
    | true =>
      have htr := charListLt_trans _ _ _ hba hac
      rw [hbc] at htr
      exact Bool.noConfusion htr
    | false =>
      have heq := charListLt_connex _ _ hab hba
      rw [heq] at hac
      rw [hbc] at hac
      exact Bool.noConfusion hac

theorem ddLe_total (a b : String × Json) :
    ((!(pyStrLt a.1 b.1)) || (!(pyStrLt b.1 a.1))) = true := by
  cases h1 : pyStrLt a.1 b.1 with
  | false => simp
  | true =>
    cases h2 : pyStrLt b.1 a.1 with
    | false => simp [h2]
    | true =>
      unfold pyStrLt at h1 h2
      have htr := charListLt_trans _ _ _ h1 h2
      rw [charListLt_irrefl] at htr
      exact Bool.noConfusion htr

theorem pyStrLt_asymm (a b : String) (h : pyStrLt a b = true) :
    pyStrLt b a = false := by
  cases hb : pyStrLt b a with
  | false => rfl
  | true =>
    unfold pyStrLt at h hb
    have htr := charListLt_trans _ _ _ h hb
    rw [charListLt_irrefl] at htr
    exact Bool.noConfusion htr

theorem insertDD_perm (p : String × Json) (l : List (String × Json)) :
    (insertDD p l).Perm (p :: l) := by
  induction l with
  | nil => exact List.Perm.refl _
  | cons q qs ih =>
    cases hb : pyStrLt p.1 q.1 with
    | false => simp [insertDD, hb]
    | true =>
      simp only [insertDD, hb, if_true]
      exact (ih.cons q).trans (List.Perm.swap p q qs)

theorem sortDD_perm (l : List (String × Json)) : (sortDD l).Perm l := by
  induction l with
  | nil => exact List.Perm.refl _
  | cons p ps ih =>
    exact (insertDD_perm p (sortDD ps)).trans (ih.cons p)

theorem insertDD_pairwise (p : String × Json) (l : List (String × Json))
    (h : List.Pairwise (fun a b => (!(pyStrLt a.1 b.1)) = true) l) :
    List.Pairwise (fun a b => (!(pyStrLt a.1 b.1)) = true) (insertDD p l) := by
  induction l with
  | nil => simp [insertDD]
  | cons q qs ih =>
    rw [List.pairwise_cons] at h
    cases hb : pyStrLt p.1 q.1 with
    | false =>
      simp only [insertDD, hb, Bool.false_eq_true, if_false]
      rw [List.pairwise_cons]
      constructor
      · intro x hx
        rcases List.mem_cons.mp hx with rfl | hx2
        · simp [hb]
        · exact ddLe_trans p q x (by simp [hb]) (h.1 x hx2)
      · rw [List.pairwise_cons]
        exact h
    | true =>
      simp only [insertDD, hb, if_true]
      rw [List.pairwise_cons]
      constructor
      · intro x hx
        rcases List.mem_cons.mp ((insertDD_perm p qs).mem_iff.mp hx) with
          rfl | hx2
        · simp [pyStrLt_asymm _ _ hb]
        · exact h.1 x hx2
      · exact ih h.2

theorem sortDD_pairwise (l : List (String × Json)) :
    List.Pairwise (fun a b => (!(pyStrLt a.1 b.1)) = true) (sortDD l) := by
  induction l with
  | nil => simp [sortDD]
  | cons p ps ih => exact insertDD_pairwise p (sortDD ps) ih

/-- Items that all carry a `date_discussed` key pass the code's `all(...)`
test. -/
theorem allDD_of_dated (items : List Json)
    (h : ∀ it ∈ items, ∃ dkvs dd, it = Json.obj dkvs ∧
      lookupKV dkvs "date_discussed" = some (.str dd)) :
    allDD items = some true := by
  induction items with
  | nil => rfl
  | cons it rest ih =>
    obtain ⟨dkvs, dd, rfl, hdd⟩ := h it (List.mem_cons_self it rest)
    simp only [allDD, pyContains, hdd, Option.isSome_some]
    exact ih (fun x hx => h x (List.mem_cons_of_mem _ hx))

/-- The decoration step of the embedded sort succeeds on such items, pairing
each with its `date_discussed` string. -/
theorem decorate_mapM (items : List Json)
    (h : ∀ it ∈ items, ∃ dkvs dd, it = Json.obj dkvs ∧
      lookupKV dkvs "date_discussed" = some (.str dd)) :
    ∃ dec : List (String × Json),
      (items.mapM (fun x => do
        let k ← pyGetItem x "date_discussed"
        let s ← k.asStr?
        pure (s, x))) = some dec ∧
      dec.map Prod.snd = items ∧
      (∀ p ∈ dec, pyGetItem p.2 "date_discussed" = some (.str p.1)) := by
  induction items with
  | nil => exact ⟨[], rfl, rfl, by simp⟩
  | cons it rest ih =>
    obtain ⟨dec, hdec, hmap, hprop⟩ :=
      ih (fun x hx => h x (List.mem_cons_of_mem _ hx))
    obtain ⟨dkvs, dd, rfl, hdd⟩ := h it (List.mem_cons_self it rest)
    refine ⟨(dd, Json.obj dkvs) :: dec, ?_, by simp [hmap], ?_⟩
    · rw [List.mapM_cons]
      have hf : (do
          let k ← pyGetItem (Json.obj dkvs) "date_discussed"
          let s ← k.asStr?
          pure (s, Json.obj dkvs) : Option (String × Json)) =
          some (dd, Json.obj dkvs) := by
        simp [pyGetItem, hdd, Json.asStr?]
      rw [hf, hdec]
      rfl
    · intro p hp
      rcases List.mem_cons.mp hp with rfl | hp2
      · simp [pyGetItem, hdd]
      · exact hprop p hp2

/-- C2 (amended): in a profile merge, a category sub-field that is a list in
both documents merges to the target's items followed by the source's; the
result is sorted descending by `date_discussed` and truncated to the 10 most
recent exactly when the sub-field is literally named `recent_topics` and
every concatenated item carries a `date_discussed` key (stated here for the
string-dated items the program writes); for any other sub-field name, and for
`recent_topics` whose membership test yields `False`, the concatenation is
kept unsorted and untruncated. -/
theorem merge_category_list_concat
    (now k f : String) (src tgt res sCat tCat : List (String × Json))
    (sl tl : List Json)
    (hm : mergeUserData now src tgt = some res)
    (hnds : (src.map Prod.fst).Nodup) (hndc : (sCat.map Prod.fst).Nodup)
    (hk1 : k ≠ "uuid") (hk2 : k ≠ "created") (hk3 : k ≠ "last_modified")
    (hsk : lookupKV src k = some (.obj sCat))
    (htk : lookupKV tgt k = some (.obj tCat))
    (hf1 : f ≠ "last_modified") (hf2 : f ≠ "total_conversations")
    (hsf : lookupKV sCat f = some (.arr sl))
    (htf : lookupKV tCat f = some (.arr tl)) :
    ∃ m, lookupKV res k = some (.obj m) ∧
      (f ≠ "recent_topics" → lookupKV m f = some (.arr (tl ++ sl))) ∧
      (f = "recent_topics" → allDD (tl ++ sl) = some false →
        lookupKV m f = some (.arr (tl ++ sl))) ∧
      (f = "recent_topics" →
        (∀ it ∈ tl ++ sl, ∃ dkvs dd, it = Json.obj dkvs ∧
          lookupKV dkvs "date_discussed" = some (.str dd)) →
        ∃ sorted, sorted.Perm (tl ++ sl) ∧
          List.Pairwise (fun a b => ∀ da db,
            pyGetItem a "date_discussed" = some (.str da) →
            pyGetItem b "date_discussed" = some (.str db) →
            pyStrLt da db = false) sorted ∧
          lookupKV m f = some (.arr (sorted.take 10))) := by
  obtain ⟨w, hw, hres⟩ :=
    (mergeUserData_lookup now k hk1 hk2 hk3 src tgt res hnds hm).2 _ hsk
  rw [htk] at hw
  simp only [keyResult] at hw
  obtain ⟨m, hmc, rfl⟩ : ∃ m, mergeCat now tCat sCat = some m ∧ w = Json.obj m := by
    cases hc : mergeCat now tCat sCat with
    | none => rw [hc] at hw; exact Option.noConfusion hw
    | some m =>
      rw [hc] at hw
      simp only [Option.map_some', Option.some.injEq] at hw
      exact ⟨m, rfl, hw.symm⟩
  obtain ⟨w', hw', hmf⟩ :=
    (mergeCatGo_lookup now sCat f sCat tCat m hndc hmc).2 _ hsf
  rw [htf] at hw'
  simp only [fieldResult, if_neg hf1, if_neg hf2] at hw'
  refine ⟨m, hres, ?_, ?_, ?_⟩
  · intro hrt
    simp only [listMergeField, if_neg hrt, Option.some.injEq] at hw'
    rw [hmf, ← hw']
  · intro hrt hall
    subst hrt
    simp only [listMergeField, if_pos rfl, if_true, hall, Option.some.injEq] at hw'
    rw [hmf, ← hw']
  · intro hrt hdated
    subst hrt
    have hall := allDD_of_dated _ hdated
    obtain ⟨dec, hdec, hmapsnd, hprop⟩ := decorate_mapM _ hdated
    simp only [listMergeField, if_pos rfl, if_true, hall] at hw'
    have hsort : sortByDD (tl ++ sl) = some ((sortDD dec).map Prod.snd) := by
      unfold sortByDD
      rw [hdec]
      rfl
    rw [hsort] at hw'
    simp only [Option.map_some', Option.some.injEq] at hw'
    refine ⟨(sortDD dec).map Prod.snd, ?_, ?_, ?_⟩
    · have hp := (sortDD_perm dec).map Prod.snd
      rw [hmapsnd] at hp
      exact hp
    · rw [List.pairwise_map]
      have hs := sortDD_pairwise dec
      refine hs.imp_of_mem ?_
      intro p q hp' hq' hle
      intro da db hda hdb
      have hpd := hprop p ((sortDD_perm dec).subset hp')
      have hqd := hprop q ((sortDD_perm dec).subset hq')
      rw [hpd] at hda
      rw [hqd] at hdb
      have hda' : p.1 = da := by
        have := Option.some.inj hda
        exact (Json.str.injEq _ _).mp this
      have hdb' : q.1 = db := by
        have := Option.some.inj hdb
        exact (Json.str.injEq _ _).mp this
      rw [← hda', ← hdb']
      simpa using hle
    · rw [hmf, ← hw']

/-- Counterexample for C2 as frozen: the sort-and-truncate rule does not
depend only on the items' shape — for a sub-field named `stuff` whose items
all carry `date_discussed`, the merge keeps the concatenation in target-first
order even though the first item's date is strictly earlier than the second's
(the claim demands a descending sort).  The code keys the rule on the literal
name `recent_topics`. -/
theorem merge_other_list_field_not_sorted :
    mergeUserData "2024-07-01"
      [("cat", Json.obj [("stuff", Json.arr
        [Json.obj [("date_discussed", Json.str "2024-06-01")]])])]
      [("cat", Json.obj [("stuff", Json.arr
        [Json.obj [("date_discussed", Json.str "2024-01-01")]])])] =
      some [("cat", Json.obj [("stuff", Json.arr
          [Json.obj [("date_discussed", Json.str "2024-01-01")],
           Json.obj [("date_discussed", Json.str "2024-06-01")]])]),
        ("last_modified", Json.str "2024-07-01")] ∧
      pyStrLt "2024-01-01" "2024-06-01" = true :=
  ⟨by rfl, by rfl⟩

/-- Witness for C2 (amended), merging singleton `recent_topics` lists dated
2024-01-01 (target) and 2024-06-01 (source). -/
theorem merge_category_list_concat_witness :
    ∃ m, lookupKV [("cat", Json.obj [("recent_topics", Json.arr
        [Json.obj [("date_discussed", Json.str "2024-06-01")],
         Json.obj [("date_discussed", Json.str "2024-01-01")]])]),
        ("last_modified", Json.str "2024-07-01")] "cat" = some (.obj m) ∧
      ("recent_topics" ≠ "recent_topics" →
        lookupKV m "recent_topics" = some (.arr
          ([Json.obj [("date_discussed", Json.str "2024-01-01")]] ++
           [Json.obj [("date_discussed", Json.str "2024-06-01")]]))) ∧
      ("recent_topics" = "recent_topics" →
        allDD ([Json.obj [("date_discussed", Json.str "2024-01-01")]] ++
          [Json.obj [("date_discussed", Json.str "2024-06-01")]]) = some false →
        lookupKV m "recent_topics" = some (.arr
          ([Json.obj [("date_discussed", Json.str "2024-01-01")]] ++
           [Json.obj [("date_discussed", Json.str "2024-06-01")]]))) ∧
      ("recent_topics" = "recent_topics" →
        (∀ it ∈ [Json.obj [("date_discussed", Json.str "2024-01-01")]] ++
            [Json.obj [("date_discussed", Json.str "2024-06-01")]],
          ∃ dkvs dd, it = Json.obj dkvs ∧
            lookupKV dkvs "date_discussed" = some (.str dd)) →
        ∃ sorted, sorted.Perm
            ([Json.obj [("date_discussed", Json.str "2024-01-01")]] ++
             [Json.obj [("date_discussed", Json.str "2024-06-01")]]) ∧
          List.Pairwise (fun a b => ∀ da db,
            pyGetItem a "date_discussed" = some (.str da) →
            pyGetItem b "date_discussed" = some (.str db) →
            pyStrLt da db = false) sorted ∧
          lookupKV m "recent_topics" = some (.arr (sorted.take 10))) :=
  merge_category_list_concat "2024-07-01" "cat" "recent_topics"
    [("cat", Json.obj [("recent_topics", Json.arr
      [Json.obj [("date_discussed", Json.str "2024-06-01")]])])]
    [("cat", Json.obj [("recent_topics", Json.arr
      [Json.obj [("date_discussed", Json.str "2024-01-01")]])])]
    [("cat", Json.obj [("recent_topics", Json.arr
        [Json.obj [("date_discussed", Json.str "2024-06-01")],
         Json.obj [("date_discussed", Json.str "2024-01-01")]])]),
     ("last_modified", Json.str "2024-07-01")]
    [("recent_topics", Json.arr
      [Json.obj [("date_discussed", Json.str "2024-06-01")]])]
    [("recent_topics", Json.arr
      [Json.obj [("date_discussed", Json.str "2024-01-01")]])]
    [Json.obj [("date_discussed", Json.str "2024-06-01")]]
    [Json.obj [("date_discussed", Json.str "2024-01-01")]]
    (by rfl) (by decide) (by decide) (by decide) (by decide) (by decide)
    (by rfl) (by rfl) (by decide) (by decide) (by rfl) (by rfl)

/-- C4 (amended): every Profile Store and Log Store operation given a string
the UUID validator rejects fails with `InvalidIdentifier` — except the two
`exists` operations, which return `false` instead of failing.  Covered are
all public operations taking a user identifier: `user_exists`, `log_exists`,
`get_user_data`, `create_user`, `update_user`, `update_category_field`,
`add_to_list`, `delete_user`, `merge_users` (either side),
`get_conversation`, `store_conversation`, `append_to_conversation`,
`list_conversations`, `delete_conversation`, `store_multi_user_conversation`
(any participant), `move_conversations` (either side) and
`prune_conversation`.  (The validator accepts the canonical 8-4-4-4-12
hexadecimal form, case-insensitive, and — through the regex `$` — also that
form followed by one trailing newline.) -/
theorem invalid_uuid_behaviour (s : String) (hs : isValidUuid s = false)
    (ust : UserFiles) (lst : LogFiles)
    (now other cat fld name content message : String) (withTs : Bool)
    (v : Json) (data : List (String × Json))
    (ini : Option (List (String × Json)))
    (uuids : List String) (hmem : s ∈ uuids)
    (keep : Option Int) (sd ed : Option String) :
    userExists ust s = false ∧
    logExists lst s name = false ∧
    getUserData ust s = .error .invalidIdentifier ∧
    createUser ust now s ini = .error .invalidIdentifier ∧
    updateUser ust now s data = .error .invalidIdentifier ∧
    updateCategoryField ust now s cat fld v = .error .invalidIdentifier ∧
    addToList ust now s name v = .error .invalidIdentifier ∧
    deleteUser ust s = .error .invalidIdentifier ∧
    mergeUsers ust now s other = .error .invalidIdentifier ∧
    mergeUsers ust now other s = .error .invalidIdentifier ∧
    getConversation lst s name = .error .invalidIdentifier ∧
    storeConversation lst now s name content = .error .invalidIdentifier ∧
    appendToConversation lst now s name message withTs =
      .error .invalidIdentifier ∧
    listConversations lst s = .error .invalidIdentifier ∧
    deleteConversation lst s name = .error .invalidIdentifier ∧
    storeMultiUserConversation lst now uuids name content =
      .error .invalidIdentifier ∧
    moveConversationsOp lst now s other = .error .invalidIdentifier ∧
    moveConversationsOp lst now other s = .error .invalidIdentifier ∧
    pruneConversationOp lst s name keep sd ed = .error .invalidIdentifier := by
  have hne : uuids.isEmpty = false := by
    cases uuids with
    | nil => simp at hmem
    | cons a l => rfl
  have hany : (uuids.any fun u => !(isValidUuid u)) = true :=
    List.any_eq_true.mpr ⟨s, hmem, by simp [hs]⟩
  refine ⟨?_, ?_, ?_, ?_, ?_, ?_, ?_, ?_, ?_, ?_, ?_, ?_, ?_, ?_, ?_, ?_,
    ?_, ?_, ?_⟩
  · simp [userExists, hs]
  · simp [logExists, hs]
  · simp [getUserData, hs]
  · simp [createUser, hs]
  · simp [updateUser, hs]
  · simp [updateCategoryField, hs]
  · simp [addToList, hs]
  · simp [deleteUser, hs]
  · simp [mergeUsers, hs]
  · simp [mergeUsers, hs]
  · simp [getConversation, hs]
  · simp [storeConversation, hs]
  · simp [appendToConversation, hs]
  · simp [listConversations, hs]
  · simp [deleteConversation, hs]
  · simp [storeMultiUserConversation, hne, hany]
  · simp [moveConversationsOp, hs]
  · simp [moveConversationsOp, hs]
  · simp [pruneConversationOp, hs]

/-- Witness for C4 (amended) at the concrete rejected string `"nope"`. -/
theorem invalid_uuid_behaviour_witness :
    userExists [] "nope" = false ∧
    logExists [] "nope" "log" = false ∧
    getUserData [] "nope" = .error .invalidIdentifier ∧
    createUser [] "2024-07-01" "nope" none = .error .invalidIdentifier ∧
    updateUser [] "2024-07-01" "nope" [] = .error .invalidIdentifier ∧
    updateCategoryField [] "2024-07-01" "nope" "prefs" "color" (.str "blue") =
      .error .invalidIdentifier ∧
    addToList [] "2024-07-01" "nope" "topics" (.str "space") =
      .error .invalidIdentifier ∧
    deleteUser [] "nope" = .error .invalidIdentifier ∧
    mergeUsers [] "2024-07-01" "nope"
      "aaaaaaaa-aaaa-aaaa-aaaa-aaaaaaaaaaaa" = .error .invalidIdentifier ∧
    mergeUsers [] "2024-07-01" "aaaaaaaa-aaaa-aaaa-aaaa-aaaaaaaaaaaa"
      "nope" = .error .invalidIdentifier ∧
    getConversation [] "nope" "log" = .error .invalidIdentifier ∧
    storeConversation [] "2024-07-01" "nope" "log" "hello" =
      .error .invalidIdentifier ∧
    appendToConversation [] "2024-07-01" "nope" "log" "hi" true =
      .error .invalidIdentifier ∧
    listConversations [] "nope" = .error .invalidIdentifier ∧
    deleteConversation [] "nope" "log" = .error .invalidIdentifier ∧
    storeMultiUserConversation [] "2024-07-01"
      ["aaaaaaaa-aaaa-aaaa-aaaa-aaaaaaaaaaaa", "nope"] "log" "hello" =
      .error .invalidIdentifier ∧
    moveConversationsOp [] "2024-07-01" "nope"
      "aaaaaaaa-aaaa-aaaa-aaaa-aaaaaaaaaaaa" = .error .invalidIdentifier ∧
    moveConversationsOp [] "2024-07-01"
      "aaaaaaaa-aaaa-aaaa-aaaa-aaaaaaaaaaaa" "nope" =
      .error .invalidIdentifier ∧
    pruneConversationOp [] "nope" "log" none none none =
      .error .invalidIdentifier :=
  invalid_uuid_behaviour "nope" (by rfl) [] [] "2024-07-01"
    "aaaaaaaa-aaaa-aaaa-aaaa-aaaaaaaaaaaa" "prefs" "color" "log" "hello"
    "hi" true (.str "blue") [] none
    ["aaaaaaaa-aaaa-aaaa-aaaa-aaaaaaaaaaaa", "nope"] (by simp)
    none none none

/-- Counterexample for C4 as frozen: `user_exists` and `log_exists` on a
malformed UUID return `False` — a value — instead of failing with
`InvalidIdentifier`; the string is indeed rejected by the validator. -/
theorem exists_ops_return_false_on_invalid :
    isValidUuid "not-a-uuid" = false ∧
    userExists [("aaaaaaaa-aaaa-aaaa-aaaa-aaaaaaaaaaaa", [])] "not-a-uuid" =
      false ∧
    logExists [("aaaaaaaa-aaaa-aaaa-aaaa-aaaaaaaaaaaa", [("log.txt", "x")])]
      "not-a-uuid" "log" = false :=
  ⟨by rfl, by rfl, by rfl⟩

theorem not_mem_of_lookupKV_none {α : Type} (kvs : List (String × α))
    (k : String) (h : lookupKV kvs k = none) : ∀ kv ∈ kvs, kv.1 ≠ k := by
  induction kvs with
  | nil => simp
  | cons kv rest ih =>
    obtain ⟨k', v'⟩ := kv
    by_cases hk : k' = k
    · subst hk; simp [lookupKV] at h
    · simp only [lookupKV, if_neg hk] at h
      intro x hx
      rcases List.mem_cons.mp hx with rfl | hx2
      · exact hk
      · exact ih h x hx2

theorem foldl_setKV_lookup_not_mem :
    ∀ (l : List (String × Json)) (acc : List (String × Json)) (k : String),
      (∀ kv ∈ l, kv.1 ≠ k) →
      lookupKV (l.foldl (fun a kv => setKV a kv.1 kv.2) acc) k =
        lookupKV acc k := by
  intro l
  induction l with
  | nil => intro acc k _; rfl
  | cons kv rest ih =>
    intro acc k h
    simp only [List.foldl_cons]
    rw [ih (setKV acc kv.1 kv.2) k (fun x hx => h x (List.mem_cons_of_mem _ hx)),
      lookupKV_setKV_other acc kv.1 k kv.2
        (fun hh => h kv (List.mem_cons_self kv rest) hh.symm)]

theorem foldl_updateStep_lookup :
    ∀ (l : List (String × Json)) (acc : List (String × Json)) (k : String),
      (∀ kv ∈ l, kv.1 = "uuid" ∨ kv.1 = "created" ∨ kv.1 ≠ k) →
      (k = "uuid" ∨ k = "created" ∨ (∀ kv ∈ l, kv.1 ≠ k)) →
      lookupKV (l.foldl (fun a kv =>
        if kv.1 = "uuid" ∨ kv.1 = "created" then a else setKV a kv.1 kv.2)
        acc) k = lookupKV acc k := by
  intro l
  induction l with
  | nil => intro acc k _ _; rfl
  | cons kv rest ih =>
    intro acc k h1 h2
    simp only [List.foldl_cons]
    by_cases hskip : kv.1 = "uuid" ∨ kv.1 = "created"
    · rw [if_pos hskip]
      refine ih acc k (fun x hx => h1 x (List.mem_cons_of_mem _ hx)) ?_
      rcases h2 with h | h | h
      · exact Or.inl h
      · exact Or.inr (Or.inl h)
      · exact Or.inr (Or.inr (fun x hx => h x (List.mem_cons_of_mem _ hx)))
    · rw [if_neg hskip]
      have hne : kv.1 ≠ k := by
        rcases h2 with rfl | rfl | h
        · intro hh; exact hskip (Or.inl hh)
        · intro hh; exact hskip (Or.inr hh)
        · exact h kv (List.mem_cons_self kv rest)
      rw [ih (setKV acc kv.1 kv.2) k
        (fun x hx => h1 x (List.mem_cons_of_mem _ hx)) ?_,
        lookupKV_setKV_other acc kv.1 k kv.2 (Ne.symm hne)]
      rcases h2 with h | h | h
      · exact Or.inl h
      · exact Or.inr (Or.inl h)
      · exact Or.inr (Or.inr (fun x hx => h x (List.mem_cons_of_mem _ hx)))

/-- `update_user` never touches `uuid` or `created`. -/
theorem updateUserDoc_lookup_skip (now : String)
    (doc data : List (String × Json)) (k : String)
    (hk : k = "uuid" ∨ k = "created") :
    lookupKV (updateUserDoc now doc data) k = lookupKV doc k := by
  have hk3 : k ≠ "last_modified" := by
    rcases hk with rfl | rfl <;> decide
  unfold updateUserDoc
  rw [foldl_updateStep_lookup data _ k
    (fun kv _ => by
      by_cases h1 : kv.1 = "uuid"
      · exact Or.inl h1
      · by_cases h2 : kv.1 = "created"
        · exact Or.inr (Or.inl h2)
        · exact Or.inr (Or.inr (fun hh => by
            rcases hk with rfl | rfl
            · exact h1 hh
            · exact h2 hh)))
    (by
      rcases hk with h | h
      · exact Or.inl h
      · exact Or.inr (Or.inl h)),
    lookupKV_setKV_other doc "last_modified" k _ hk3]

/-- `update_user` stamps `last_modified` to the current date whenever the
supplied fields do not themselves contain a `last_modified` key. -/
theorem updateUserDoc_lm (now : String) (doc data : List (String × Json))
    (hdata : lookupKV data "last_modified" = none) :
    lookupKV (updateUserDoc now doc data) "last_modified" =
      some (.str now) := by
  have hmem := not_mem_of_lookupKV_none data "last_modified" hdata
  unfold updateUserDoc
  rw [foldl_updateStep_lookup data _ "last_modified"
    (fun kv hv => Or.inr (Or.inr (hmem kv hv)))
    (Or.inr (Or.inr hmem)),
    lookupKV_setKV_self]

/-- A successful `update_category_field` rewrites only the category and the
document's `last_modified`, which it stamps to the current date. -/
theorem updateCategoryFieldDoc_ok (now : String)
    (doc d : List (String × Json)) (cat fld : String) (v : Json)
    (h : updateCategoryFieldDoc now doc cat fld v = .ok d) :
    lookupKV d "last_modified" = some (.str now) ∧
    (∀ k, k ≠ cat → k ≠ "last_modified" → lookupKV d k = lookupKV doc k) := by
  unfold updateCategoryFieldDoc at h
  cases hcv : (lookupKV doc cat).getD (.obj []) with
  | obj ckvs =>
    rw [hcv] at h
    simp only [Except.ok.injEq] at h
    subst h
    refine ⟨lookupKV_setKV_self _ _ _, ?_⟩
    intro k hk1 hk2
    rw [lookupKV_setKV_other _ "last_modified" k _ hk2,
      lookupKV_setKV_other _ cat k _ hk1]
  | null => rw [hcv] at h; exact Except.noConfusion h
  | bool b => rw [hcv] at h; exact Except.noConfusion h
  | num n => rw [hcv] at h; exact Except.noConfusion h
  | str s => rw [hcv] at h; exact Except.noConfusion h
  | arr l => rw [hcv] at h; exact Except.noConfusion h

/-- A successful `update_category_field` cannot have targeted a key that
holds a string (such as `uuid` or `created`): the type check fails there. -/
theorem updateCategoryFieldDoc_preserves (now : String)
    (doc d : List (String × Json)) (cat fld k : String) (v : Json) (sv : String)
    (h : updateCategoryFieldDoc now doc cat fld v = .ok d)
    (hk2 : k ≠ "last_modified") (hstr : lookupKV doc k = some (.str sv)) :
    lookupKV d k = lookupKV doc k := by
  by_cases hck : cat = k
  · subst hck
    unfold updateCategoryFieldDoc at h
    rw [hstr] at h
    simp only [Option.getD_some] at h
    exact Except.noConfusion h
  · exact (updateCategoryFieldDoc_ok now doc d cat fld v h).2 k
      (fun hh => hck hh.symm) hk2

/-- A successful `add_to_list` rewrites only the list and the document's
`last_modified`, which it stamps to the current date. -/
theorem addToListDoc_ok (now : String) (doc d : List (String × Json))
    (name : String) (v : Json)
    (h : addToListDoc now doc name v = .ok d) :
    lookupKV d "last_modified" = some (.str now) ∧
    (∀ k, k ≠ name → k ≠ "last_modified" → lookupKV d k = lookupKV doc k) := by
  unfold addToListDoc at h
  cases hcv : (lookupKV doc name).getD (.arr []) with
  | arr items =>
    rw [hcv] at h
    simp only [Except.ok.injEq] at h
    subst h
    refine ⟨lookupKV_setKV_self _ _ _, ?_⟩
    intro k hk1 hk2
    rw [lookupKV_setKV_other _ "last_modified" k _ hk2,
      lookupKV_setKV_other _ name k _ hk1]
  | null => rw [hcv] at h; exact Except.noConfusion h
  | bool b => rw [hcv] at h; exact Except.noConfusion h
  | num n => rw [hcv] at h; exact Except.noConfusion h
  | str s => rw [hcv] at h; exact Except.noConfusion h
  | obj l => rw [hcv] at h; exact Except.noConfusion h

theorem addToListDoc_preserves (now : String) (doc d : List (String × Json))
    (name k : String) (v : Json) (sv : String)
    (h : addToListDoc now doc name v = .ok d)
    (hk2 : k ≠ "last_modified") (hstr : lookupKV doc k = some (.str sv)) :
    lookupKV d k = lookupKV doc k := by
  by_cases hck : name = k
  · subst hck
    unfold addToListDoc at h
    rw [hstr] at h
    simp only [Option.getD_some] at h
    exact Except.noConfusion h
  · exact (addToListDoc_ok now doc d name v h).2 k
      (fun hh => hck hh.symm) hk2

/-- A successful mutation keeps `uuid` and `created` unchanged, given that
they hold strings (as they do on every document descending from
creation). -/
theorem applyMut_preserves_id (now : String) (doc d : List (String × Json))
    (m : Mut) (k : String) (sv : String)
    (hk : k = "uuid" ∨ k = "created")
    (hstr : lookupKV doc k = some (.str sv))
    (h : applyMut now doc m = .ok d) :
    lookupKV d k = lookupKV doc k := by
  have hk2 : k ≠ "last_modified" := by
    rcases hk with rfl | rfl <;> decide
  cases m with
  | replaceFields data =>
    simp only [applyMut, Except.ok.injEq] at h
    subst h
    exact updateUserDoc_lookup_skip now doc data k hk
  | setCatField c f v =>
    exact updateCategoryFieldDoc_preserves now doc d c f k v sv h hk2 hstr
  | appendList n v =>
    exact addToListDoc_preserves now doc d n k v sv h hk2 hstr
  | mergeFrom s =>
    simp only [applyMut] at h
    cases hmu : mergeUserData now s doc with
    | none => rw [hmu] at h; exact Except.noConfusion h
    | some mres =>
      rw [hmu] at h
      simp only [Except.ok.injEq] at h
      subst h
      exact mergeUserData_preserves_skip now k hk s doc mres hmu

/-- Every successful mutation stamps `last_modified` to the current date,
except `replace_fields` when the supplied fields themselves contain a
`last_modified` key. -/
theorem applyMut_lm (now : String) (doc d : List (String × Json)) (m : Mut)
    (h : applyMut now doc m = .ok d)
    (hrf : ∀ data, m = .replaceFields data →
      lookupKV data "last_modified" = none) :
    lookupKV d "last_modified" = some (.str now) := by
  cases m with
  | replaceFields data =>
    simp only [applyMut, Except.ok.injEq] at h
    subst h
    exact updateUserDoc_lm now doc data (hrf data rfl)
  | setCatField c f v =>
    exact (updateCategoryFieldDoc_ok now doc d c f v h).1
  | appendList n v =>
    exact (addToListDoc_ok now doc d n v h).1
  | mergeFrom s =>
    simp only [applyMut] at h
    cases hmu : mergeUserData now s doc with
    | none => rw [hmu] at h; exact Except.noConfusion h
    | some mres =>
      rw [hmu] at h
      simp only [Except.ok.injEq] at h
      subst h
      exact mergeUserData_lm now s doc mres hmu

/-- Creation seeds `uuid` and `created`, and the initial fields cannot
override them. -/
theorem createUserDoc_id (now u : String)
    (ini : Option (List (String × Json))) :
    lookupKV (createUserDoc now u ini) "uuid" = some (.str u) ∧
    lookupKV (createUserDoc now u ini) "created" = some (.str now) := by
  cases ini with
  | none => exact ⟨rfl, rfl⟩
  | some l =>
    unfold createUserDoc
    have hfil : ∀ k, (k = "uuid" ∨ k = "created") →
        ∀ kv ∈ l.filter (fun kv => kv.1 != "uuid" && kv.1 != "created"),
          kv.1 ≠ k := by
      intro k hk kv hkv
      have := List.of_mem_filter hkv
      simp only [Bool.and_eq_true, bne_iff_ne] at this
      rcases hk with rfl | rfl
      · exact this.1
      · exact this.2
    constructor
    · rw [foldl_setKV_lookup_not_mem _ _ "uuid" (hfil "uuid" (Or.inl rfl))]
      rfl
    · rw [foldl_setKV_lookup_not_mem _ _ "created" (hfil "created" (Or.inr rfl))]
      rfl

theorem applyMuts_id (u c : String) :
    ∀ (ms : List (Mut × String)) (doc d : List (String × Json)),
      lookupKV doc "uuid" = some (.str u) →
      lookupKV doc "created" = some (.str c) →
      applyMuts ms doc = .ok d →
      lookupKV d "uuid" = some (.str u) ∧
      lookupKV d "created" = some (.str c) := by
  intro ms
  induction ms with
  | nil =>
    intro doc d h1 h2 h
    simp only [applyMuts, Except.ok.injEq] at h
    subst h
    exact ⟨h1, h2⟩
  | cons mn rest ih =>
    intro doc d h1 h2 h
    obtain ⟨m, now⟩ := mn
    simp only [applyMuts] at h
    cases hstep : applyMut now doc m with
    | error e => rw [hstep] at h; exact Except.noConfusion h
    | ok dd =>
      rw [hstep] at h
      have hu := applyMut_preserves_id now doc dd m "uuid" u (Or.inl rfl) h1 hstep
      have hc := applyMut_preserves_id now doc dd m "created" c (Or.inr rfl) h2 hstep
      exact ih dd d (hu.trans h1) (hc.trans h2) h

/-- C5 (amended): on every profile document reachable by creation followed
by any sequence of successful mutations (`replace_fields`,
`set_category_field`, `append_to_list`, merge as target), `uuid` and
`created` keep their creation values; and every successful mutation sets
`last_modified` to the current date, except `replace_fields` when the
supplied fields themselves contain a `last_modified` key, in which case the
supplied value overwrites the fresh stamp. -/
theorem profile_identity_invariant
    (u now0 : String) (ini : Option (List (String × Json)))
    (ms : List (Mut × String)) (d : List (String × Json))
    (h : applyMuts ms (createUserDoc now0 u ini) = .ok d) :
    lookupKV d "uuid" = some (.str u) ∧
    lookupKV d "created" = some (.str now0) ∧
    (∀ m now doc doc', applyMut now doc m = .ok doc' →
      (∀ data, m = Mut.replaceFields data →
        lookupKV data "last_modified" = none) →
      lookupKV doc' "last_modified" = some (.str now)) := by
  obtain ⟨h1, h2⟩ := createUserDoc_id now0 u ini
  obtain ⟨hu, hc⟩ := applyMuts_id u now0 ms (createUserDoc now0 u ini) d h1 h2 h
  exact ⟨hu, hc, fun m now doc doc' hstep hrf => applyMut_lm now doc doc' m hstep hrf⟩

/-- Witness for C5 (amended): create on 2024-01-01, then a successful
`set_category_field` on 2024-02-02. -/
theorem profile_identity_invariant_witness :
    lookupKV [("uuid", Json.str "aaaaaaaa-aaaa-aaaa-aaaa-aaaaaaaaaaaa"),
        ("created", Json.str "2024-01-01"),
        ("last_modified", Json.str "2024-02-02"),
        ("prefs", Json.obj [("color", Json.obj [("value", Json.str "blue"),
          ("date_added", Json.str "2024-02-02")]),
          ("last_modified", Json.str "2024-02-02")])] "uuid" =
      some (.str "aaaaaaaa-aaaa-aaaa-aaaa-aaaaaaaaaaaa") ∧
    lookupKV [("uuid", Json.str "aaaaaaaa-aaaa-aaaa-aaaa-aaaaaaaaaaaa"),
        ("created", Json.str "2024-01-01"),
        ("last_modified", Json.str "2024-02-02"),
        ("prefs", Json.obj [("color", Json.obj [("value", Json.str "blue"),
          ("date_added", Json.str "2024-02-02")]),
          ("last_modified", Json.str "2024-02-02")])] "created" =
      some (.str "2024-01-01") ∧
    (∀ m now doc doc', applyMut now doc m = .ok doc' →
      (∀ data, m = Mut.replaceFields data →
        lookupKV data "last_modified" = none) →
      lookupKV doc' "last_modified" = some (.str now)) :=
  profile_identity_invariant "aaaaaaaa-aaaa-aaaa-aaaa-aaaaaaaaaaaa"
    "2024-01-01" none
    [(Mut.setCatField "prefs" "color" (.str "blue"), "2024-02-02")]
    [("uuid", Json.str "aaaaaaaa-aaaa-aaaa-aaaa-aaaaaaaaaaaa"),
     ("created", Json.str "2024-01-01"),
     ("last_modified", Json.str "2024-02-02"),
     ("prefs", Json.obj [("color", Json.obj [("value", Json.str "blue"),
       ("date_added", Json.str "2024-02-02")]),
       ("last_modified", Json.str "2024-02-02")])]
    (by rfl)

/-- Counterexample for C5 as frozen: a successful `replace_fields` whose
field set contains `last_modified` leaves the supplied value, not the
current date. -/
theorem replace_fields_keeps_supplied_lm :
    applyMut "2024-07-01"
      [("uuid", Json.str "aaaaaaaa-aaaa-aaaa-aaaa-aaaaaaaaaaaa"),
       ("created", Json.str "2024-01-01"),
       ("last_modified", Json.str "2024-01-01")]
      (.replaceFields [("last_modified", Json.str "1111-11-11")]) =
      .ok [("uuid", Json.str "aaaaaaaa-aaaa-aaaa-aaaa-aaaaaaaaaaaa"),
        ("created", Json.str "2024-01-01"),
        ("last_modified", Json.str "1111-11-11")] ∧
    ("1111-11-11" : String) ≠ "2024-07-01" :=
  ⟨by rfl, by decide⟩

theorem foldl_setKV_lookup_mem :
    ∀ (l acc : List (String × Json)) (k : String) (v : Json),
      (l.map Prod.fst).Nodup → lookupKV l k = some v →
      lookupKV (l.foldl (fun a kv => setKV a kv.1 kv.2) acc) k = some v := by
  intro l
  induction l with
  | nil => intro acc k v _ hl; simp [lookupKV] at hl
  | cons kv rest ih =>
    intro acc k v hnd hl
    obtain ⟨g, gv⟩ := kv
    simp only [List.map_cons, List.nodup_cons] at hnd
    simp only [List.foldl_cons]
    by_cases hgk : g = k
    · subst hgk
      simp [lookupKV] at hl
      subst hl
      rw [foldl_setKV_lookup_not_mem rest _ g
        (fun x hx => fun hh => hnd.1 (hh ▸ List.mem_map_of_mem Prod.fst hx)),
        lookupKV_setKV_self]
    · simp only [lookupKV, if_neg hgk] at hl
      exact ih (setKV acc g gv) k v hnd.2 hl

theorem lookupKV_filter (l : List (String × Json))
    (P : String × Json → Bool) (k : String)
    (hP : ∀ v, P (k, v) = true) :
    lookupKV (l.filter P) k = lookupKV l k := by
  induction l with
  | nil => rfl
  | cons kv rest ih =>
    obtain ⟨g, gv⟩ := kv
    by_cases hgk : g = k
    · subst hgk
      rw [List.filter_cons_of_pos (hP gv)]
      simp [lookupKV]
    · by_cases hp : P (g, gv) = true
      · rw [List.filter_cons_of_pos hp]
        simp [lookupKV, hgk, ih]
      · rw [List.filter_cons_of_neg (by simpa using hp)]
        simp [lookupKV, hgk, ih]

/-- C6 (amended): for a valid UUID, `create` fails with `AlreadyExists` when
the profile exists; otherwise it returns a document whose `uuid` and
`created` are seeded (any supplied `uuid`/`created` keys being dropped),
whose `last_modified` is the current date unless the initial fields supply a
`last_modified` value, which then overwrites the seed, and which carries
every other supplied key's value. -/
theorem create_user_behaviour
    (st : UserFiles) (now u : String) (ini : List (String × Json))
    (hvalid : isValidUuid u = true)
    (hnd : (ini.map Prod.fst).Nodup) :
    (userExists st u = true →
      createUser st now u (some ini) = .error .alreadyExists) ∧
    (userExists st u = false →
      ∃ doc st', createUser st now u (some ini) = .ok (doc, st') ∧
        lookupKV doc "uuid" = some (.str u) ∧
        lookupKV doc "created" = some (.str now) ∧
        lookupKV doc "last_modified" =
          some ((lookupKV ini "last_modified").getD (.str now)) ∧
        (∀ k v, k ≠ "uuid" → k ≠ "created" → lookupKV ini k = some v →
          lookupKV doc k = some v)) := by
  have hndf : ((ini.filter
      (fun kv => kv.1 != "uuid" && kv.1 != "created")).map Prod.fst).Nodup :=
    ((List.filter_sublist ini).map Prod.fst).nodup hnd
  constructor
  · intro hex
    simp [createUser, hvalid, hex]
  · intro hex
    refine ⟨createUserDoc now u (some ini),
      setKV st u (createUserDoc now u (some ini)),
      by simp [createUser, hvalid, hex], ?_, ?_, ?_, ?_⟩
    · exact (createUserDoc_id now u (some ini)).1
    · exact (createUserDoc_id now u (some ini)).2
    · unfold createUserDoc
      have hfil : lookupKV (ini.filter
          (fun kv => kv.1 != "uuid" && kv.1 != "created")) "last_modified" =
          lookupKV ini "last_modified" :=
        lookupKV_filter ini _ "last_modified" (fun v => rfl)
      cases hlm : lookupKV ini "last_modified" with
      | none =>
        rw [hlm] at hfil
        rw [foldl_setKV_lookup_not_mem _ _ "last_modified"
          (not_mem_of_lookupKV_none _ _ hfil)]
        rfl
      | some v =>
        rw [hlm] at hfil
        rw [foldl_setKV_lookup_mem _ _ "last_modified" v hndf hfil]
        rfl
    · intro k v hk1 hk2 hkv
      unfold createUserDoc
      have hfil : lookupKV (ini.filter
          (fun kv => kv.1 != "uuid" && kv.1 != "created")) k =
          lookupKV ini k :=
        lookupKV_filter ini _ k (fun w => by simp [hk1, hk2])
      rw [foldl_setKV_lookup_mem _ _ k v hndf (hfil.trans hkv)]

/-- Witness for C6 (amended) on an empty store, with one ordinary initial
field. -/
theorem create_user_behaviour_witness :
    (userExists [] "aaaaaaaa-aaaa-aaaa-aaaa-aaaaaaaaaaaa" = true →
      createUser [] "2024-05-05" "aaaaaaaa-aaaa-aaaa-aaaa-aaaaaaaaaaaa"
        (some [("nickname", Json.str "Bob")]) = .error .alreadyExists) ∧
    (userExists [] "aaaaaaaa-aaaa-aaaa-aaaa-aaaaaaaaaaaa" = false →
      ∃ doc st', createUser [] "2024-05-05"
          "aaaaaaaa-aaaa-aaaa-aaaa-aaaaaaaaaaaa"
          (some [("nickname", Json.str "Bob")]) = .ok (doc, st') ∧
        lookupKV doc "uuid" =
          some (.str "aaaaaaaa-aaaa-aaaa-aaaa-aaaaaaaaaaaa") ∧
        lookupKV doc "created" = some (.str "2024-05-05") ∧
        lookupKV doc "last_modified" =
          some ((lookupKV [("nickname", Json.str "Bob")]
            "last_modified").getD (.str "2024-05-05")) ∧
        (∀ k v, k ≠ "uuid" → k ≠ "created" →
          lookupKV [("nickname", Json.str "Bob")] k = some v →
          lookupKV doc k = some v)) :=
  create_user_behaviour [] "2024-05-05" "aaaaaaaa-aaaa-aaaa-aaaa-aaaaaaaaaaaa"
    [("nickname", Json.str "Bob")] (by rfl) (by decide)

/-- Counterexample for C6 as frozen: a supplied `last_modified` initial field
survives the merge of initial fields, so the fresh profile's `last_modified`
is not the current date. -/
theorem create_user_initial_lm_overrides :
    createUser [] "2024-05-05" "aaaaaaaa-aaaa-aaaa-aaaa-aaaaaaaaaaaa"
      (some [("last_modified", Json.str "1999-01-01")]) =
      .ok ([("uuid", Json.str "aaaaaaaa-aaaa-aaaa-aaaa-aaaaaaaaaaaa"),
        ("created", Json.str "2024-05-05"),
        ("last_modified", Json.str "1999-01-01")],
        [("aaaaaaaa-aaaa-aaaa-aaaa-aaaaaaaaaaaa",
          [("uuid", Json.str "aaaaaaaa-aaaa-aaaa-aaaa-aaaaaaaaaaaa"),
           ("created", Json.str "2024-05-05"),
           ("last_modified", Json.str "1999-01-01")])]) ∧
    ("1999-01-01" : String) ≠ "2024-05-05" :=
  ⟨by rfl, by decide⟩

/-- Spec-side header/body split: the longest prefix of non-blank lines plus
the first blank line form the header; the rest is the body. -/
def splitHeadSpec (lines : List String) : List String × List String :=
  let pre := lines.takeWhile (fun l => !(pyStrip l).isEmpty)
  match lines.dropWhile (fun l => !(pyStrip l).isEmpty) with
  | [] => (pre, [])
  | b :: body => (pre ++ [b], body)

theorem splitHeader_eq_spec : ∀ lines : List String,
    splitHeader lines = splitHeadSpec lines := by
  intro lines
  induction lines with
  | nil => rfl
  | cons l rest ih =>
    by_cases hb : (pyStrip l).isEmpty = true
    · simp only [splitHeader, hb, if_true, splitHeadSpec,
        List.takeWhile_cons, List.dropWhile_cons, hb, Bool.not_true,
        Bool.false_eq_true, if_false]
      simp
    · simp only [splitHeader, hb, if_false, splitHeadSpec,
        List.takeWhile_cons, List.dropWhile_cons, hb, Bool.not_false, if_true,
        Bool.false_eq_true]
      rw [ih]
      unfold splitHeadSpec
      cases hdw : rest.dropWhile (fun l => !(pyStrip l).isEmpty) with
      | nil => simp
      | cons b body => simp

/-- The last `n` elements of a list. -/
def lastN {α : Type} (n : Nat) (xs : List α) : List α :=
  xs.drop (xs.length - n)

theorem pyTailSlice_pos {α : Type} (k : Int) (hk : 1 ≤ k) (xs : List α) :
    pyTailSlice k xs = lastN k.toNat xs := by
  unfold pyTailSlice lastN
  rw [if_pos (by omega)]

/-- Spec-side date filter on one line: a timestamped line is kept exactly
when its timestamp is at or after any given start bound and at or before any
given end bound; untimestamped lines are kept unconditionally. -/
def keepLineSpec (sd ed : Option String) (l : String) : Bool :=
  match parseTs l with
  | none => true
  | some d =>
    (sd.all fun s => !(pyStrLt d s)) && (ed.all fun e => !(pyStrLt e d))

theorem keepLine_eq_spec (sd ed : Option String) (l : String)
    (hsd : ∀ s, sd = some s → s ≠ "") (hed : ∀ e, ed = some e → e ≠ "") :
    keepLine sd ed l = keepLineSpec sd ed l := by
  unfold keepLine keepLineSpec
  cases parseTs l with
  | none => rfl
  | some d =>
    cases sd with
    | none => cases ed with
      | none => rfl
      | some e =>
        have he : (e != "") = true := by
          simpa using hed e rfl
        simp [givenDate, he]
    | some s =>
      have hs : (s != "") = true := by
        simpa using hsd s rfl
      cases ed with
      | none => simp [givenDate, hs]
      | some e =>
        have he : (e != "") = true := by
          simpa using hed e rfl
        simp [givenDate, hs, he]

/-- Spec-side line-count stage: keep the last `keep_lines` body lines when a
bound was supplied. -/
def lastNStage (keep : Option Int) (body : List String) : List String :=
  match keep with
  | none => body
  | some kk => lastN kk.toNat body

theorem dateFilterStage (sd ed : Option String) (B : List String)
    (hsd : ∀ s, sd = some s → s ≠ "") (hed : ∀ e, ed = some e → e ≠ "") :
    (if (givenDate sd || givenDate ed) = true then B.filter (keepLine sd ed)
     else B) = B.filter (keepLineSpec sd ed) := by
  by_cases hgiven : (givenDate sd || givenDate ed) = true
  · rw [if_pos hgiven]
    exact List.filter_congr (fun l _ => keepLine_eq_spec sd ed l hsd hed)
  · rw [if_neg hgiven]
    have hsdn : sd = none := by
      cases sd with
      | none => rfl
      | some s =>
        simp only [Bool.or_eq_true, givenDate] at hgiven
        push_neg at hgiven
        exact absurd (by simpa using hgiven.1) (hsd s rfl)
    have hedn : ed = none := by
      cases ed with
      | none => rfl
      | some e =>
        simp only [Bool.or_eq_true, givenDate] at hgiven
        push_neg at hgiven
        exact absurd (by simpa using hgiven.2) (hed e rfl)
    subst hsdn; subst hedn
    rw [List.filter_eq_self.mpr]
    intro l _
    unfold keepLineSpec
    cases parseTs l <;> rfl

/-- C7 (amended): `prune` returns `false` on an absent or empty log, leaving
it unchanged; on a non-empty log it splits at the first blank line (header
kept verbatim including that line), keeps the last `keep_lines` body lines
when a positive `keep_lines` is given, then keeps exactly the remaining body
lines whose leading bracketed timestamp lies within the given non-empty
bounds inclusive (string comparison) plus all lines without a recognizable
timestamp, and rewrites the file as header followed by the filtered body.
(`keep_lines = 0` keeps the whole body — Python's `[-0:]` slice — and an
empty-string date bound is treated as absent, so both are excluded here.) -/
theorem prune_conversation_behaviour
    (content : String) (keep : Option Int) (sd ed : Option String)
    (hkeep : ∀ kk, keep = some kk → 1 ≤ kk)
    (hsd : ∀ s, sd = some s → s ≠ "")
    (hed : ∀ e, ed = some e → e ≠ "")
    (hcontent : content ≠ "") :
    pruneConversation none keep sd ed = (false, none) ∧
    pruneConversation (some "") keep sd ed = (false, some "") ∧
    pruneConversation (some content) keep sd ed =
      (true, some (String.intercalate "\n"
        ((splitHeadSpec (pySplitLines content)).1 ++
          (lastNStage keep
            (splitHeadSpec (pySplitLines content)).2).filter
            (keepLineSpec sd ed)))) := by
  refine ⟨rfl, rfl, ?_⟩
  have hstep : pruneConversation (some content) keep sd ed =
      (true, some (pruneContent content keep sd ed)) := by
    unfold pruneConversation
    simp [hcontent]
  rw [hstep]
  simp only [pruneContent, splitHeader_eq_spec]
  cases keep with
  | none =>
    simp only [sliceStage, lastNStage]
    rw [dateFilterStage sd ed _ hsd hed]
  | some kk =>
    simp only [sliceStage, lastNStage]
    rw [pyTailSlice_pos kk (hkeep kk rfl), dateFilterStage sd ed _ hsd hed]

/-- Witness for C7 (amended): a two-message log with one untimestamped line,
pruned to the last 2 body lines and then to dates from 2024-02-01 on. -/
theorem prune_conversation_behaviour_witness :
    pruneConversation none (some 2) (some "2024-02-01") none = (false, none) ∧
    pruneConversation (some "") (some 2) (some "2024-02-01") none =
      (false, some "") ∧
    pruneConversation
      (some "h\n\n[2024-01-01 10:00:00] x\n[2024-06-01 10:00:00] y\nplain")
      (some 2) (some "2024-02-01") none =
      (true, some (String.intercalate "\n"
        ((splitHeadSpec
          (pySplitLines
            "h\n\n[2024-01-01 10:00:00] x\n[2024-06-01 10:00:00] y\nplain")).1 ++
          (lastNStage (some 2)
            (splitHeadSpec
              (pySplitLines
                "h\n\n[2024-01-01 10:00:00] x\n[2024-06-01 10:00:00] y\nplain")).2).filter
            (keepLineSpec (some "2024-02-01") none)))) :=
  prune_conversation_behaviour
    "h\n\n[2024-01-01 10:00:00] x\n[2024-06-01 10:00:00] y\nplain"
    (some 2) (some "2024-02-01") none
    (by intro kk hkk; cases hkk; decide)
    (by intro s hs; cases hs; decide)
    (by intro e he; cases he)
    (by decide)

/-- Counterexample for C7 as frozen: `keep_lines = 0` is "given", so the
claim demands that only the last 0 body lines survive — leaving just the
header `"h\n"` — but Python's `[-0:]` slice keeps the whole body and the
file is rewritten unchanged. -/
theorem prune_keep_zero_keeps_body :
    pruneConversation (some "h\n\na\nb") (some 0) none none =
      (true, some "h\n\na\nb") ∧
    ("h\n\na\nb" : String) ≠ "h\n" :=
  ⟨by rfl, by decide⟩

theorem eraseKV_sublist {α : Type} (s : List (String × α)) (k : String) :
    (eraseKV s k).Sublist s := by
  induction s with
  | nil => simp [eraseKV]
  | cons kv rest ih =>
    obtain ⟨k', v⟩ := kv
    by_cases hk : k' = k
    · simp only [eraseKV, if_pos hk]
      exact (List.sublist_cons_self _ _)
    · simp only [eraseKV, if_neg hk]
      exact ih.cons₂ _

theorem lookupKV_eraseKV_self {α : Type} (s : List (String × α)) (k : String)
    (hnd : (s.map Prod.fst).Nodup) : lookupKV (eraseKV s k) k = none := by
  induction s with
  | nil => rfl
  | cons kv rest ih =>
    obtain ⟨k', v⟩ := kv
    simp only [List.map_cons, List.nodup_cons] at hnd
    by_cases hk : k' = k
    · subst hk
      simp only [eraseKV, if_pos rfl]
      exact lookupKV_eq_none_of_not_mem rest k' hnd.1
    · simp only [eraseKV, if_neg hk, lookupKV, if_neg hk]
      exact ih hnd.2

/-- Behaviour of the relocation loop when no rename collides: the returned
paths are the per-log target names, target entries outside the written names
are untouched, every source log's content lands under its (possibly renamed)
name, and every listed source log is removed. -/
theorem moveConvGo_spec (ts tgtPath : String) (tgt0 src0 : LogDir) :
    ∀ (names : List String) (s t : LogDir),
      names.Nodup →
      (s.map Prod.fst).Nodup →
      (∀ n ∈ names, lookupKV t n = lookupKV tgt0 n) →
      (∀ n ∈ names, lookupKV s n = lookupKV src0 n) →
      (∀ n ∈ names, lookupKV tgt0 (renamedName ts n) = none) →
      (∀ n ∈ names, ∀ m ∈ names, renamedName ts n ≠ m) →
      (∀ n ∈ names, ∀ m ∈ names, n ≠ m →
        renamedName ts n ≠ renamedName ts m) →
      (moveConvGo ts tgtPath names s t).1 =
        names.map (fun n => tgtPath ++ "/" ++
          (if (lookupKV tgt0 n).isSome then renamedName ts n else n)) ∧
      (∀ x, (∀ n ∈ names,
          (if (lookupKV tgt0 n).isSome then renamedName ts n else n) ≠ x) →
        lookupKV (moveConvGo ts tgtPath names s t).2.2 x = lookupKV t x) ∧
      (∀ n ∈ names,
        lookupKV (moveConvGo ts tgtPath names s t).2.2
          (if (lookupKV tgt0 n).isSome then renamedName ts n else n) =
          some ((lookupKV src0 n).getD "")) ∧
      (∀ x, x ∉ names →
        lookupKV (moveConvGo ts tgtPath names s t).2.1 x = lookupKV s x) ∧
      (∀ n ∈ names, lookupKV (moveConvGo ts tgtPath names s t).2.1 n = none) := by
  intro names
  induction names with
  | nil =>
    intro s t _ _ _ _ _ _ _
    exact ⟨rfl, fun x _ => rfl, by simp, fun x _ => rfl, by simp⟩
  | cons n0 rest ih =>
    intro s t hndn hnds ht hs h1 h2 h3
    have hmem0 : n0 ∈ n0 :: rest := List.mem_cons_self n0 rest
    simp only [List.nodup_cons] at hndn
    have hw0 : (if (lookupKV t n0).isSome then renamedName ts n0 else n0) =
        (if (lookupKV tgt0 n0).isSome then renamedName ts n0 else n0) := by
      rw [ht n0 hmem0]
    have hwne : ∀ n ∈ rest,
        (if (lookupKV tgt0 n0).isSome then renamedName ts n0 else n0) ≠ n := by
      intro n hn
      by_cases h0 : (lookupKV tgt0 n0).isSome
      · rw [if_pos h0]
        exact h2 n0 hmem0 n (List.mem_cons_of_mem _ hn)
      · rw [if_neg h0]
        intro hh
        exact hndn.1 (hh ▸ hn)
    have ihyp := ih (eraseKV s n0)
      (setKV t (if (lookupKV tgt0 n0).isSome then renamedName ts n0 else n0)
        ((lookupKV src0 n0).getD ""))
      hndn.2
      (((eraseKV_sublist s n0).map Prod.fst).nodup hnds)
      (fun n hn => by
        rw [lookupKV_setKV_other _ _ _ _ (Ne.symm (hwne n hn))]
        exact ht n (List.mem_cons_of_mem _ hn))
      (fun n hn => by
        rw [lookupKV_eraseKV_other s n0 n
          (fun hh => hndn.1 (hh ▸ hn))]
        exact hs n (List.mem_cons_of_mem _ hn))
      (fun n hn => h1 n (List.mem_cons_of_mem _ hn))
      (fun n hn m hm => h2 n (List.mem_cons_of_mem _ hn) m
        (List.mem_cons_of_mem _ hm))
      (fun n hn m hm => h3 n (List.mem_cons_of_mem _ hn) m
        (List.mem_cons_of_mem _ hm))
    obtain ⟨ia, ib, ic, ie, idd⟩ := ihyp
    have hstep : moveConvGo ts tgtPath (n0 :: rest) s t =
        ((tgtPath ++ "/" ++
          (if (lookupKV tgt0 n0).isSome then renamedName ts n0 else n0)) ::
          (moveConvGo ts tgtPath rest (eraseKV s n0)
            (setKV t (if (lookupKV tgt0 n0).isSome then renamedName ts n0
              else n0) ((lookupKV src0 n0).getD ""))).1,
         (moveConvGo ts tgtPath rest (eraseKV s n0)
            (setKV t (if (lookupKV tgt0 n0).isSome then renamedName ts n0
              else n0) ((lookupKV src0 n0).getD ""))).2.1,
         (moveConvGo ts tgtPath rest (eraseKV s n0)
            (setKV t (if (lookupKV tgt0 n0).isSome then renamedName ts n0
              else n0) ((lookupKV src0 n0).getD ""))).2.2) := by
      simp only [moveConvGo]
      rw [hw0, hs n0 hmem0]
    rw [hstep]
    refine ⟨?_, ?_, ?_, ?_, ?_⟩
    · simp only [List.map_cons, List.cons.injEq]
      exact ⟨trivial, ia⟩
    · intro x hx
      rw [ib x (fun n hn => hx n (List.mem_cons_of_mem _ hn)),
        lookupKV_setKV_other _ _ _ _ (Ne.symm (hx n0 hmem0))]
    · intro n hn
      rcases List.mem_cons.mp hn with rfl | hn2
      · rw [ib _ ?_, lookupKV_setKV_self]
        intro m hm
        by_cases hm0 : (lookupKV tgt0 m).isSome
        · rw [if_pos hm0]
          by_cases h0 : (lookupKV tgt0 n).isSome
          · rw [if_pos h0]
            exact h3 m (List.mem_cons_of_mem _ hm) n hmem0
              (fun hh => hndn.1 (hh ▸ hm))
          · rw [if_neg h0]
            exact h2 m (List.mem_cons_of_mem _ hm) n hmem0
        · rw [if_neg hm0]
          by_cases h0 : (lookupKV tgt0 n).isSome
          · rw [if_pos h0]
            intro hh
            exact h2 n hmem0 m (List.mem_cons_of_mem _ hm) hh.symm
          · rw [if_neg h0]
            intro hh
            exact hndn.1 (hh ▸ hm)
      · exact ic n hn2
    · intro x hx
      have hx' : x ∉ rest := fun hh => hx (List.mem_cons_of_mem _ hh)
      have hxn0 : x ≠ n0 := fun hh => hx (hh ▸ hmem0)
      rw [ie x hx', lookupKV_eraseKV_other s n0 x hxn0]
    · intro n hn
      rcases List.mem_cons.mp hn with rfl | hn2
      · rw [ie n hndn.1, lookupKV_eraseKV_self s n hnds]
      · exact idd n hn2

/-- C8 (amended): for distinct users, `relocate_all` copies every source log
into the target namespace — renaming an incoming log with a
`_merged_<timestamp>` suffix before the extension when the target already has
a log of the same name — removes each source log after its copy, and returns
the target-side path of every moved log; no existing target log's content is
ever overwritten, provided no pre-existing target log and no source log
already bears one of the `_merged_<timestamp>` names the rename could
produce (when one does, the copy is written over it without re-checking). -/
theorem move_conversations_behaviour
    (ts tgtU : String) (srcDir tgtDir : LogDir)
    (hnd : (srcDir.map Prod.fst).Nodup)
    (h1 : ∀ n ∈ txtNames srcDir, lookupKV tgtDir (renamedName ts n) = none)
    (h2 : ∀ n ∈ txtNames srcDir, ∀ m ∈ txtNames srcDir,
      renamedName ts n ≠ m)
    (h3 : ∀ n ∈ txtNames srcDir, ∀ m ∈ txtNames srcDir, n ≠ m →
      renamedName ts n ≠ renamedName ts m) :
    (moveConversations ts tgtU srcDir tgtDir).1 =
      (txtNames srcDir).map (fun n => "data/logs/" ++ tgtU ++ "/" ++
        (if (lookupKV tgtDir n).isSome then renamedName ts n else n)) ∧
    (∀ x c, lookupKV tgtDir x = some c →
      lookupKV (moveConversations ts tgtU srcDir tgtDir).2.2 x = some c) ∧
    (∀ n ∈ txtNames srcDir,
      lookupKV (moveConversations ts tgtU srcDir tgtDir).2.2
        (if (lookupKV tgtDir n).isSome then renamedName ts n else n) =
        some ((lookupKV srcDir n).getD "")) ∧
    (∀ n ∈ txtNames srcDir,
      lookupKV (moveConversations ts tgtU srcDir tgtDir).2.1 n = none) := by
  have hndn : (txtNames srcDir).Nodup := by
    unfold txtNames
    exact (List.filter_sublist _).nodup hnd
  obtain ⟨ia, ib, ic, ie, idd⟩ := moveConvGo_spec ts ("data/logs/" ++ tgtU)
    tgtDir srcDir (txtNames srcDir) srcDir tgtDir hndn hnd
    (fun n _ => rfl) (fun n _ => rfl) h1 h2 h3
  unfold moveConversations
  refine ⟨ia, ?_, ic, idd⟩
  intro x c hxc
  rw [ib x ?_, hxc]
  intro n hn
  by_cases h0 : (lookupKV tgtDir n).isSome
  · rw [if_pos h0]
    intro hh
    have := h1 n hn
    rw [hh, hxc] at this
    exact Option.noConfusion this
  · rw [if_neg h0]
    intro hh
    exact h0 (by rw [hh, hxc]; rfl)

/-- Witness for C8 (amended): one source log `a.txt` moved into a target that
already holds `a.txt` — the copy lands under the `_merged_` name, the
original target log is untouched, and the source log is removed. -/
theorem move_conversations_behaviour_witness :
    (moveConversations "20240101000000" "bbbbbbbb-bbbb-bbbb-bbbb-bbbbbbbbbbbb"
      [("a.txt", "S")] [("a.txt", "T0")]).1 =
      (txtNames [("a.txt", "S")]).map (fun n =>
        "data/logs/" ++ "bbbbbbbb-bbbb-bbbb-bbbb-bbbbbbbbbbbb" ++ "/" ++
        (if (lookupKV [("a.txt", "T0")] n).isSome then
          renamedName "20240101000000" n else n)) ∧
    (∀ x c, lookupKV [("a.txt", "T0")] x = some c →
      lookupKV (moveConversations "20240101000000"
        "bbbbbbbb-bbbb-bbbb-bbbb-bbbbbbbbbbbb"
        [("a.txt", "S")] [("a.txt", "T0")]).2.2 x = some c) ∧
    (∀ n ∈ txtNames [("a.txt", "S")],
      lookupKV (moveConversations "20240101000000"
        "bbbbbbbb-bbbb-bbbb-bbbb-bbbbbbbbbbbb"
        [("a.txt", "S")] [("a.txt", "T0")]).2.2
        (if (lookupKV [("a.txt", "T0")] n).isSome then
          renamedName "20240101000000" n else n) =
        some ((lookupKV [("a.txt", "S")] n).getD "")) ∧
    (∀ n ∈ txtNames [("a.txt", "S")],
      lookupKV (moveConversations "20240101000000"
        "bbbbbbbb-bbbb-bbbb-bbbb-bbbbbbbbbbbb"
        [("a.txt", "S")] [("a.txt", "T0")]).2.1 n = none) :=
  move_conversations_behaviour "20240101000000"
    "bbbbbbbb-bbbb-bbbb-bbbb-bbbbbbbbbbbb" [("a.txt", "S")] [("a.txt", "T0")]
    (by decide) (by decide) (by decide) (by decide)

/-- Counterexample for C8 as frozen: when the target already holds a log
whose name equals the `_merged_<timestamp>` name the rename produces, the
copy overwrites that log's content (`T1` is lost, replaced by the source's
`S`) — the rename is decided once and the renamed path is not re-checked. -/
theorem move_conversations_overwrites_renamed :
    moveConversations "TS" "bbbbbbbb-bbbb-bbbb-bbbb-bbbbbbbbbbbb"
      [("a.txt", "S")] [("a.txt", "T0"), ("a_merged_TS.txt", "T1")] =
      (["data/logs/bbbbbbbb-bbbb-bbbb-bbbb-bbbbbbbbbbbb/a_merged_TS.txt"],
       [], [("a.txt", "T0"), ("a_merged_TS.txt", "S")]) ∧
    ("S" : String) ≠ "T1" :=
  ⟨by rfl, by decide⟩
